import Mathlib

set_option maxRecDepth 8000

/-!
Verification of the `ai-sales-analytics` chat/SQL pipeline.

This file gives a shallow embedding, in Lean 4, of the core of the
repository:

* `apps/chat/services/sql_validator.py`  — `SQLValidator.validate`
* `apps/chat/services/query_executor.py` — `QueryExecutor.execute`
* `apps/chat/services/agent.py`          — `ChatAgent.run` / `ChatAgent.stream_run`
* `apps/chat/models.py`                  — `QueryAuditLog` / `ChatMessage` rows

SQL text is modelled as `List Char`.  Python string/regex operations are
modelled for the ASCII fragment (the only fragment the validator's
keyword/LIMIT logic is sensitive to): `str.strip` strips the six ASCII
whitespace characters, `\w` is `[a-zA-Z0-9_]`, `\s` is ASCII whitespace,
`\d` is `[0-9]`, `str.upper` maps `a-z` to `A-Z`.

External effects are oracles: the OpenAI client is a function from the
message history to a response (or a transport exception, modelled as a
value), the database cursor is a function from SQL text to an outcome,
and wall-clock latencies are parameters.  Persistence (`objects.create`)
is modelled by accumulating the created rows in the output.
-/

namespace SalesAnalytics

/-! ## Character classes (ASCII model of Python `str`/`re` behaviour) -/

/-- Python whitespace for `str.strip()` / regex `\s` (ASCII fragment):
space, tab, newline, carriage return, vertical tab, form feed. -/
def pyIsSpace (c : Char) : Bool :=
  c.toNat = 32 || c.toNat = 9 || c.toNat = 10 || c.toNat = 13 || c.toNat = 11 || c.toNat = 12

/-- Regex `\w` (ASCII fragment): `[a-zA-Z0-9_]`. -/
def isWordChar (c : Char) : Bool :=
  (97 ≤ c.toNat && c.toNat ≤ 122) || (65 ≤ c.toNat && c.toNat ≤ 90) ||
    (48 ≤ c.toNat && c.toNat ≤ 57) || c.toNat = 95

/-- Regex `\d` (ASCII fragment): `[0-9]`. -/
def pyIsDigit (c : Char) : Bool :=
  48 ≤ c.toNat && c.toNat ≤ 57

/-- Python `str.upper` on a single character (ASCII fragment). -/
def pyUpper (c : Char) : Char :=
  if 97 ≤ c.toNat && c.toNat ≤ 122 then Char.ofNat (c.toNat - 32) else c

/-! ## Python string primitives on `List Char` -/

/-- Python `str.lstrip()`. -/
def lstrip (l : List Char) : List Char := l.dropWhile pyIsSpace

/-- Drop from the right all characters satisfying `p` (Python `str.rstrip`). -/
def rstripBy (p : Char → Bool) (l : List Char) : List Char :=
  (l.reverse.dropWhile p).reverse

/-- Python `str.strip()`. -/
def strip (l : List Char) : List Char := rstripBy pyIsSpace (lstrip l)

/-- Python `str.rstrip(';')`: drops every trailing semicolon. -/
def rstripSemi (l : List Char) : List Char := rstripBy (fun c => c == ';') l

/-- Python `re.sub(r'^```\w*\n?', '', s)`: if the text starts with a
fence marker, remove it together with the following run of word
characters (the fence language tag) and an optional newline. -/
def stripLeadFence (l : List Char) : List Char :=
  if l.take 3 = "```".toList then
    let r := (l.drop 3).dropWhile isWordChar
    if r.head? = some '\n' then r.tail else r
  else l

/-- Python `re.sub(r'\n?```$', '', s)`.  In Python an unanchored `$`
matches at the end of the string or just before a final newline, so the
pattern also fires on text ending in a fence marker followed by one
final newline (that final newline is kept). -/
def stripTrailFence (l : List Char) : List Char :=
  let r := l.reverse
  if r.take 4 = "\n```".toList.reverse then (r.drop 4).reverse
  else if r.take 3 = "```".toList then (r.drop 3).reverse
  else if r.take 5 = "\n```\n".toList.reverse then ('\n' :: r.drop 5).reverse
  else if r.take 4 = "```\n".toList.reverse then ('\n' :: r.drop 4).reverse
  else l


/-- Fuelled scanner behind `tokens` (fuel keeps the recursion
structural so that concrete instances reduce in the kernel; the fuel is
immaterial as long as it covers the input length, see `tokensF_irrel`). -/
def tokensF : Nat → List Char → List (List Char)
  | 0, _ => []
  | fuel + 1, l =>
    match l with
    | [] => []
    | c :: rest =>
      if isWordChar c then
        (c :: rest.takeWhile isWordChar) :: tokensF fuel (rest.dropWhile isWordChar)
      else tokensF fuel rest

/-- Python `re.findall(r'\b\w+\b', s)`: the maximal runs of word
characters. -/
def tokens (l : List Char) : List (List Char) := tokensF l.length l



/-- Python `int` on a run of decimal digits. -/
def digitsToNat (ds : List Char) : Nat :=
  ds.foldl (fun n c => n * 10 + (c.toNat - 48)) 0

/-! ## The `LIMIT n` regex

`re.search(r'\bLIMIT\s+(\d+)\b', s, re.IGNORECASE)` and
`re.sub(r'\bLIMIT\s+\d+\b', 'LIMIT 200', s, flags=re.IGNORECASE)`.

`matchLimitAt l` attempts the pattern (minus the leading `\b`, which the
scanners check from the character preceding the position) at the head of
`l`.  Maximal-munch on `\s+`/`\d+` followed by the `\b` check is
equivalent to the backtracking semantics here: shortening `\s+` leaves a
whitespace (not a digit) next, and shortening `\d+` leaves a digit (a
word character) after the group, so no backtracking alternative can
succeed when the greedy one fails. -/

/-- Attempt `LIMIT\s+(\d+)\b` (case-insensitive) at the head of `l`;
return the numeric value of the group and the matched length. -/
def matchLimitAt (l : List Char) : Option (Nat × Nat) :=
  if (l.take 5).map pyUpper = "LIMIT".toList then
    let r := l.drop 5
    let ws := r.takeWhile pyIsSpace
    let r1 := r.dropWhile pyIsSpace
    let ds := r1.takeWhile pyIsDigit
    let r2 := r1.dropWhile pyIsDigit
    if ws = [] then none
    else if ds = [] then none
    else
      match r2 with
      | [] => some (digitsToNat ds, 5 + ws.length + ds.length)
      | x :: _ =>
        if isWordChar x then none else some (digitsToNat ds, 5 + ws.length + ds.length)
  else none

/-- Scan for the first match of `\bLIMIT\s+(\d+)\b`.  `pw` records
whether the character before the current position is a word character
(the `\b` test; at the start of the string it is `false`).  Returns the
unmatched text before the match, the value of the group, and the text
after the match. -/
def findFirstLimit : Bool → List Char → Option (List Char × Nat × List Char)
  | _, [] => none
  | pw, c :: rest =>
    match (if pw then none else matchLimitAt (c :: rest)) with
    | some (v, n) => some ([], v, (c :: rest).drop n)
    | none =>
      match findFirstLimit (isWordChar c) rest with
      | some (pre, v, post) => some (c :: pre, v, post)
      | none => none



/-- Hard ceiling from `sql_validator.py` (`MAX_ROWS`). -/
def MAX_ROWS : Nat := 200

/-- Replacement text `'LIMIT {}'.format(MAX_ROWS)`. -/
def limitRepl : List Char := ("LIMIT " ++ toString MAX_ROWS).toList

/-- Fuelled scanner behind `limitMatchesAux` (see `tokensF`). -/
def limitMatchesF : Nat → Bool → List Char → List Nat
  | 0, _, _ => []
  | fuel + 1, pw, l =>
    match findFirstLimit pw l with
    | none => []
    | some (_, v, post) => v :: limitMatchesF fuel true post

/-- Values of all the non-overlapping matches that `re.sub` would find,
in scan order (the head is the match `re.search` returns).  After a
match the scan resumes just past it; the character before that position
is the final digit of the group, a word character, hence `true`. -/
def limitMatchesAux (pw : Bool) (l : List Char) : List Nat :=
  limitMatchesF l.length pw l

/-- Match values of `\bLIMIT\s+(\d+)\b` scanning from the start. -/
def limitMatches (l : List Char) : List Nat := limitMatchesAux false l

/-- Fuelled scanner behind `subLimitsAux` (see `tokensF`). -/
def subLimitsF : Nat → Bool → List Char → List Char
  | 0, _, l => l
  | fuel + 1, pw, l =>
    match findFirstLimit pw l with
    | none => l
    | some (pre, _, post) => pre ++ limitRepl ++ subLimitsF fuel true post

/-- Python `re.sub(r'\bLIMIT\s+\d+\b', 'LIMIT 200', s, re.IGNORECASE)`. -/
def subLimitsAux (pw : Bool) (l : List Char) : List Char :=
  subLimitsF l.length pw l

/-- Rewrite every `LIMIT n` clause to `LIMIT 200`, scanning from the
start of the string. -/
def subLimits (l : List Char) : List Char := subLimitsAux false l





/-! ## `sql_validator.py` -/

/-- Blocklist `DANGEROUS_KEYWORDS` from `sql_validator.py`. -/
def DANGEROUS_KEYWORDS : List (List Char) :=
  ["INSERT".toList, "UPDATE".toList, "DELETE".toList, "DROP".toList, "CREATE".toList,
   "ALTER".toList, "TRUNCATE".toList, "EXEC".toList, "EXECUTE".toList, "GRANT".toList,
   "REVOKE".toList]

/-- Mirror of the Python `ValidationResult` class. -/
structure ValidationResult where
  is_valid : Bool
  error : Option String := none
  sanitized_sql : Option (List Char) := none
deriving DecidableEq, Repr

/-- Cleaning pipeline of `SQLValidator.validate` (lines 26–31):
`sql.strip().rstrip(';')`, then the two fence substitutions, then a
final `strip()`. -/
def cleanSql (sql : List Char) : List Char :=
  strip (stripTrailFence (stripLeadFence (rstripSemi (strip sql))))

/-- First token of the cleaned, upper-cased text that is in the
blocklist (the `for token in tokens` loop returns on the first hit). -/
def firstForbidden (toks : List (List Char)) : Option (List Char) :=
  toks.find? (fun t => DANGEROUS_KEYWORDS.contains t)

/-- Embedding of `SQLValidator.validate` (`sql_validator.py`, lines
22–57). -/
def validate (sql : List Char) : ValidationResult :=
  if sql = [] then { is_valid := false, error := some "Empty SQL" }
  else
    let cleaned := cleanSql sql
    if (cleaned.map pyUpper).take 6 = "SELECT".toList then
      match firstForbidden (tokens (cleaned.map pyUpper)) with
      | some t =>
        { is_valid := false, error := some ("Forbidden keyword: " ++ String.mk t) }
      | none =>
        match findFirstLimit false cleaned with
        | some (_, v, _) =>
          if MAX_ROWS < v then { is_valid := true, sanitized_sql := some (subLimits cleaned) }
          else { is_valid := true, sanitized_sql := some cleaned }
        | none =>
          { is_valid := true, sanitized_sql := some (cleaned ++ ' ' :: limitRepl) }
    else { is_valid := false, error := some "Only SELECT queries are allowed" }

/-! ## `query_executor.py` -/

/-- Hard ceiling from `query_executor.py` (`HARD_ROW_LIMIT`). -/
def HARD_ROW_LIMIT : Nat := 200

/-- A result row: `dict(zip(columns, row))`, modelled as the zipped
association list. -/
abbrev DbRow := List (String × String)

/-- Behaviour of the database cursor for one SQL text.  `ok` runs the
statement and yields all its rows, then reports exhaustion;
`failDuringFetch` yields its rows and then raises (e.g. a timeout midway
through the result set); `raiseOnExecute` raises on `cursor.execute`
itself (malformed SQL, missing table, lock timeout). -/
inductive DbOutcome where
  | ok (columns : List String) (tuples : List (List String))
  | failDuringFetch (columns : List String) (tuples : List (List String)) (msg : String)
  | raiseOnExecute (msg : String)
deriving DecidableEq, Repr

/-- Build one row dict: `dict(zip(columns, row))`. -/
def zipRow (columns : List String) (tuple : List String) : DbRow :=
  columns.zip tuple

/-- Fuelled loop behind `fetchRows` (see `tokensF`). -/
def fetchRowsF (columns : List String) (exhaustRaises : Option String) :
    Nat → List (List String) → List DbRow → Except String (List DbRow)
  | 0, _, rows => .ok rows
  | fuel + 1, avail, rows =>
    if rows.length < HARD_ROW_LIMIT then
      if (avail.take (HARD_ROW_LIMIT - rows.length)).isEmpty then
        match exhaustRaises with
        | some m => .error m
        | none => .ok rows
      else
        fetchRowsF columns exhaustRaises fuel (avail.drop (HARD_ROW_LIMIT - rows.length))
          (rows ++ (avail.take (HARD_ROW_LIMIT - rows.length)).map (zipRow columns))
    else .ok rows

/-- The `fetchmany` loop of `QueryExecutor.execute` (lines 46–51):
`while len(rows) < HARD_ROW_LIMIT: batch = cursor.fetchmany(HARD_ROW_LIMIT - len(rows))`.
`avail` is what the cursor can still yield; if `exhaustRaises` is set
the cursor raises instead of returning an empty batch once exhausted. -/
def fetchRows (columns : List String) (exhaustRaises : Option String)
    (avail : List (List String)) (rows : List DbRow) : Except String (List DbRow) :=
  fetchRowsF columns exhaustRaises (avail.length + 1) avail rows



/-- Mirror of the Python `ExecutionResult` class (defaults as in its
`__init__`: `columns or []`, `rows or []`, `row_count=0`, …). -/
structure ExecutionResult where
  success : Bool
  columns : List String := []
  rows : List DbRow := []
  row_count : Nat := 0
  execution_time_ms : Nat := 0
  error : Option String := none
deriving DecidableEq, Repr

/-- Embedding of `QueryExecutor.execute` (`query_executor.py`, lines
28–75).  `db` is the cursor oracle for this statement; `elapsedOk` and
`elapsedErr` are the wall-clock readings taken in the success path and
in the `except` handler.  Any exception from the cursor lands in the
`except Exception` branch, which returns a failure value — the function
is total, mirroring "never raises to the caller". -/
def executeQuery (sql : List Char) (db : List Char → DbOutcome)
    (elapsedOk elapsedErr : Nat) : ExecutionResult :=
  match db sql with
  | .raiseOnExecute m =>
    { success := false, execution_time_ms := elapsedErr, error := some m }
  | .ok cols tuples =>
    match fetchRows cols none tuples [] with
    | .ok rows =>
      { success := true, columns := cols, rows := rows, row_count := rows.length,
        execution_time_ms := elapsedOk }
    | .error m =>
      { success := false, execution_time_ms := elapsedErr, error := some m }
  | .failDuringFetch cols tuples m =>
    match fetchRows cols (some m) tuples [] with
    | .ok rows =>
      { success := true, columns := cols, rows := rows, row_count := rows.length,
        execution_time_ms := elapsedOk }
    | .error m' =>
      { success := false, execution_time_ms := elapsedErr, error := some m' }

/-! ## `agent.py` — data for the orchestrator -/

/-- Stop reason of one completion choice. -/
inductive FinishReason where
  | tool_calls
  | stop
  | other
deriving DecidableEq, Repr

/-- One structured tool invocation from the model.  `arguments` is the
parsed JSON object of `tool_call.function.arguments`; the code reads
`args.get("sql", "")`. -/
structure ToolCall where
  id : String
  name : String
  arguments : List (String × String)
deriving DecidableEq, Repr

/-- Value of `json.loads(tool_call.function.arguments).get("sql", "")`. -/
def ToolCall.sqlArg (tc : ToolCall) : List Char :=
  ((tc.arguments.lookup "sql").getD "").toList

/-- One completion choice (`response.choices[0]`). -/
structure ChatChoice where
  finish_reason : FinishReason
  tool_calls : List ToolCall := []
  content : String := ""
deriving DecidableEq, Repr

/-- Outcome of one `client.chat.completions.create` call: either a
choice, or a transport-level exception (modelled as a value, caught by
the orchestrator's `except Exception`). -/
inductive ModelResponse where
  | ok (choice : ChatChoice)
  | exn (msg : String)
deriving DecidableEq, Repr

/-- Outcome of the streaming completion used for the final answer:
the sequence of `delta.content` fragments, or a transport exception. -/
inductive StreamModelResponse where
  | ok (chunks : List String)
  | exn (msg : String)
deriving DecidableEq, Repr

/-- Message history entries.  `assistantChoice` stands for
`messages.append(choice.message)`. -/
inductive Message where
  | system (content : String)
  | user (content : String)
  | assistantChoice (choice : ChatChoice)
  | tool (tool_call_id : String) (content : String)
deriving DecidableEq, Repr

/-- A `QueryAuditLog` row (`models.py`, lines 45–54), as created by the
orchestrator.  Fields not passed to `objects.create` are `none`
(nullable columns). -/
structure AuditRecord where
  user_question : String
  generated_sql : List Char
  execution_time_ms : Option Nat := none
  row_count : Option Nat := none
  error : Option String := none
deriving DecidableEq, Repr

/-- A `ChatMessage` status value. -/
inductive MsgStatus where
  | success
  | failed
deriving DecidableEq, Repr

/-- Role of a `ChatMessage` row. -/
inductive ChatRole where
  | user
  | assistant
deriving DecidableEq, Repr

/-- A `ChatMessage` row as created by the orchestrator. -/
structure ChatMessageRow where
  role : ChatRole
  content : String
  status : MsgStatus
deriving DecidableEq, Repr

/-- Mirror of the Python `AgentResult` class. -/
structure AgentResult where
  success : Bool
  response : String
  sql_used : Option (List Char) := none
  row_count : Nat := 0
  error : Option String := none
deriving DecidableEq, Repr

/-- Server-sent events emitted by `stream_run` / consumed by the SSE
transport. -/
inductive SSEvent where
  | status (message : String)
  | sql (query : List Char)
  | chunk (content : String)
  | done (session_id : String) (row_count : Nat)
  | error (message : String)
deriving DecidableEq, Repr

/-- Environment of one `ChatAgent`: the external collaborators.  `llm`
receives the tool-choice policy (`true` = "required", first iteration
only) and the accumulated history; `llmStream` is the incremental
variant used for the final answer in streaming mode; `db` is the
read-only cursor; the elapsed readings parameterise `time.time()`. -/
structure AgentEnv where
  llm : Bool → List Message → ModelResponse
  llmStream : List Message → StreamModelResponse
  db : List Char → DbOutcome
  elapsedOk : Nat := 0
  elapsedErr : Nat := 0
  systemPrompt : String := ""
  sessionId : String := ""

/-- Abstraction of `json.dumps(result.rows, cls=DecimalEncoder)` for the
tool-result message content. -/
def dumpRows (rows : List DbRow) : String :=
  String.intercalate "," (rows.map (fun r =>
    String.intercalate "," (r.map (fun p => p.1 ++ ":" ++ p.2))))

/-- Iteration ceiling `ChatAgent.MAX_TOOL_ITERATIONS`. -/
def MAX_TOOL_ITERATIONS : Nat := 5

/-- Effects of handling one entry of `choice.message.tool_calls`
(`agent.py` lines 199–251 / 341–387).  Tool calls whose name is not
`execute_sql` are skipped entirely: no message, no audit row, no event.
`events` is used by the streaming mode only (the `sql` + status events
yielded before validation). -/
structure ToolStep where
  msgs : List Message
  audits : List AuditRecord
  events : List SSEvent
  sql_used : Option (List Char)
  row_count : Option Nat
  invocations : Nat
deriving Repr

/-- Handle one tool call.  `session` tells whether a conversation
context is attached (`if session:` guards every `objects.create`). -/
def processToolCall (env : AgentEnv) (question : String) (session : Bool)
    (tc : ToolCall) : ToolStep :=
  if tc.name = "execute_sql" then
    let sql := tc.sqlArg
    let validation := validate sql
    if validation.is_valid then
      let sanitized := validation.sanitized_sql.getD []
      let result := executeQuery sanitized env.db env.elapsedOk env.elapsedErr
      if result.success then
        { msgs := [.tool tc.id (dumpRows result.rows)],
          audits := if session then
            [{ user_question := question, generated_sql := sanitized,
               row_count := some result.row_count,
               execution_time_ms := some result.execution_time_ms }] else [],
          events := [.sql sql, .status "Fetching data..."],
          sql_used := some sql, row_count := some result.row_count, invocations := 1 }
      else
        { msgs := [.tool tc.id ("Query execution error: " ++ (result.error.getD "") ++
            ". Please fix the SQL.")],
          audits := if session then
            [{ user_question := question, generated_sql := sanitized,
               error := result.error }] else [],
          events := [.sql sql, .status "Fetching data..."],
          sql_used := some sql, row_count := none, invocations := 1 }
    else
      { msgs := [.tool tc.id ("Validation error: " ++ (validation.error.getD "") ++
          ". Please fix the SQL.")],
        audits := if session then
          [{ user_question := question, generated_sql := sql,
             error := validation.error }] else [],
        events := [.sql sql, .status "Fetching data..."],
        sql_used := some sql, row_count := none, invocations := 1 }
  else
    { msgs := [], audits := [], events := [], sql_used := none, row_count := none,
      invocations := 0 }

/-- Running variables of the loop: the history plus the Python locals
`sql_used` / `row_count`, and the accumulated side effects (audit rows)
and instrumentation (model-request and tool-invocation counters). -/
structure LoopState where
  messages : List Message
  sql_used : Option (List Char) := none
  row_count : Nat := 0
  audits : List AuditRecord := []
  llm_requests : Nat := 0
  invocations : Nat := 0

/-- Fold `processToolCall` over the tool calls of one choice, in call
order, as the `for tool_call in choice.message.tool_calls` loop does. -/
def foldToolCalls (env : AgentEnv) (question : String) (session : Bool)
    (tcs : List ToolCall) (st : LoopState) : LoopState :=
  match tcs with
  | [] => st
  | tc :: rest =>
    let step := processToolCall env question session tc
    foldToolCalls env question session rest
      { st with
        messages := st.messages ++ step.msgs,
        audits := st.audits ++ step.audits,
        sql_used := step.sql_used.or st.sql_used,
        row_count := (step.row_count.getD st.row_count),
        invocations := st.invocations + step.invocations }

/-- Output of the synchronous orchestrator. -/
structure RunOutput where
  result : AgentResult
  audits : List AuditRecord
  chat_rows : List ChatMessageRow
  llm_requests : Nat
  invocations : Nat
deriving Repr

/-- Fallback answer of `ChatAgent.run` (lines 297 and 302). -/
def runFallbackText : String :=
  "Sorry, I could not process your question. Please try rephrasing it."

/-- Nonstreaming loop `while iterations < self.MAX_TOOL_ITERATIONS`
(`agent.py` lines 179–304).  `fuel` is the number of remaining
iterations; both exhausting the fuel and the `else: break` branch fall
through to the fallback failure result. -/
def runAux (env : AgentEnv) (question : String) (session : Bool) :
    Nat → LoopState → RunOutput
  | 0, st =>
    { result := { success := false, response := runFallbackText,
                  error := some "Max iterations reached or unexpected finish reason" },
      audits := st.audits,
      chat_rows := if session then [⟨.assistant, runFallbackText, .failed⟩] else [],
      llm_requests := st.llm_requests, invocations := st.invocations }
  | fuel + 1, st =>
    match env.llm (st.llm_requests == 0) st.messages with
    | .exn m =>
      { result := { success := false, response := "Service error: " ++ m, error := some m },
        audits := st.audits,
        chat_rows := if session then [⟨.assistant, "Service error: " ++ m, .failed⟩] else [],
        llm_requests := st.llm_requests + 1, invocations := st.invocations }
    | .ok choice =>
      let st1 := { st with
        messages := st.messages ++ [.assistantChoice choice],
        llm_requests := st.llm_requests + 1 }
      match choice.finish_reason with
      | .tool_calls =>
        runAux env question session fuel
          (foldToolCalls env question session choice.tool_calls st1)
      | .stop =>
        { result := { success := true, response := choice.content,
                      sql_used := st1.sql_used, row_count := st1.row_count },
          audits := st1.audits,
          chat_rows := if session then [⟨.assistant, choice.content, .success⟩] else [],
          llm_requests := st1.llm_requests, invocations := st1.invocations }
      | .other =>
        { result := { success := false, response := runFallbackText,
                      error := some "Max iterations reached or unexpected finish reason" },
          audits := st1.audits,
          chat_rows := if session then [⟨.assistant, runFallbackText, .failed⟩] else [],
          llm_requests := st1.llm_requests, invocations := st1.invocations }

/-- Embedding of `ChatAgent.run` (`agent.py` lines 164–304).  `session`
is whether a conversation context was attached (the default of the
Python parameter is `None`, i.e. `false`; the non-streaming HTTP view
calls `agent.run(user_question=question)` headless). -/
def ChatAgent.run (env : AgentEnv) (question : String) (session : Bool) : RunOutput :=
  runAux env question session MAX_TOOL_ITERATIONS
    { messages := [.system env.systemPrompt, .user question] }

/-- Output of the streaming orchestrator. -/
structure StreamOutput where
  events : List SSEvent
  audits : List AuditRecord
  chat_rows : List ChatMessageRow
  llm_requests : Nat
  invocations : Nat
deriving Repr

/-- Fallback event text of `ChatAgent.stream_run` (line 432). -/
def streamFallbackText : String :=
  "Could not process your question. Please try rephrasing it."

/-- Streaming loop of `ChatAgent.stream_run` (`agent.py` lines
323–432).  Differences from `runAux`, mirroring the source: the choice
message is appended to the history only in the tool-calls branch; per
tool call the `sql` and status events are yielded; on a natural stop one
further model request with incremental delivery is issued and its
fragments forwarded as `chunk` events; a transport exception yields an
`error` event (and writes no `ChatMessage` row). -/
def streamAux (env : AgentEnv) (question : String) :
    Nat → LoopState → List SSEvent → StreamOutput
  | 0, st, evs =>
    { events := evs ++ [.error streamFallbackText],
      audits := st.audits, chat_rows := [],
      llm_requests := st.llm_requests, invocations := st.invocations }
  | fuel + 1, st, evs =>
    match env.llm (st.llm_requests == 0) st.messages with
    | .exn m =>
      { events := evs ++ [.error ("Service error: " ++ m)],
        audits := st.audits, chat_rows := [],
        llm_requests := st.llm_requests + 1, invocations := st.invocations }
    | .ok choice =>
      match choice.finish_reason with
      | .tool_calls =>
        let st1 := { st with
          messages := st.messages ++ [.assistantChoice choice],
          llm_requests := st.llm_requests + 1 }
        let evs1 := evs ++ (choice.tool_calls.map (fun tc =>
          (processToolCall env question true tc).events)).flatten
        streamAux env question fuel
          (foldToolCalls env question true choice.tool_calls st1) evs1
      | .stop =>
        let evs1 := evs ++ [.status "Preparing response..."]
        match env.llmStream st.messages with
        | .exn m =>
          { events := evs1 ++ [.error ("Service error: " ++ m)],
            audits := st.audits, chat_rows := [],
            llm_requests := st.llm_requests + 2, invocations := st.invocations }
        | .ok chunks =>
          let frags := chunks.filter (fun s => !(s == ""))
          let finalText := String.join frags
          { events := evs1 ++ frags.map SSEvent.chunk ++
              [.done env.sessionId st.row_count],
            audits := st.audits,
            chat_rows := [⟨.assistant, finalText, .success⟩],
            llm_requests := st.llm_requests + 2, invocations := st.invocations }
      | .other =>
        { events := evs ++ [.error streamFallbackText],
          audits := st.audits, chat_rows := [],
          llm_requests := st.llm_requests + 1, invocations := st.invocations }

/-- Embedding of `ChatAgent.stream_run` (`agent.py` lines 309–432).
A session is always attached in streaming mode (the parameter is
required). -/
def ChatAgent.stream_run (env : AgentEnv) (question : String) : StreamOutput :=
  streamAux env question MAX_TOOL_ITERATIONS
    { messages := [.system env.systemPrompt, .user question] }
    [.status "Analyzing your question..."]

/-! ## Claim-specific counterexample inputs -/

/-- Definition following the specification's wording for step 2 of the
validator ("trim surrounding whitespace and a single trailing statement
terminator"): remove at most one trailing semicolon after stripping.
This is the claimed behaviour, to be compared with the code's
`rstrip(';')`, which removes every trailing semicolon. -/
def claimedSingleTerminatorTrim (sql : List Char) : List Char :=
  let t := strip sql
  if t.getLast? = some ';' then t.dropLast else t

/-- Model behaviour for the C1 counterexample: one `execute_sql` tool
call, then a natural stop. -/
def c1Env : AgentEnv :=
  { llm := fun requiredTool _ =>
      if requiredTool then
        .ok { finish_reason := .tool_calls,
              tool_calls := [{ id := "call_1", name := "execute_sql",
                               arguments := [("sql", "SELECT id FROM t")] }] }
      else .ok { finish_reason := .stop, content := "answer" },
    llmStream := fun _ => .ok ["answer"],
    db := fun _ => .ok ["id"] [["1"]] }

/-- Model behaviour for the C2 counterexample: four tool-call rounds,
then a natural stop on the fifth iteration (so the streaming mode issues
a sixth, incremental-delivery request). -/
def c2Env : AgentEnv :=
  { llm := fun _ msgs =>
      if msgs.length ≤ 5 then .ok { finish_reason := .tool_calls }
      else .ok { finish_reason := .stop, content := "late answer" },
    llmStream := fun _ => .ok ["late answer"],
    db := fun _ => .ok [] [] }

/-- Model behaviour for the C8 counterexample: one `execute_sql` call
whose SQL gets a `LIMIT` appended by sanitization, then a stop. -/
def c8Env : AgentEnv :=
  { llm := fun requiredTool _ =>
      if requiredTool then
        .ok { finish_reason := .tool_calls,
              tool_calls := [{ id := "call_8", name := "execute_sql",
                               arguments := [("sql", "SELECT id FROM t")] }] }
      else .ok { finish_reason := .stop, content := "answer" },
    llmStream := fun _ => .ok ["answer"],
    db := fun _ => .ok ["id"] [["1"]] }

/-- Upper-case ASCII letter test. -/
def isUpperAlpha (c : Char) : Bool := 65 ≤ c.toNat && c.toNat ≤ 90

/-- Model behaviour that never stops requesting tools: every completion
comes back with finish reason `tool_calls` (and no tool calls to run).
Used to exercise the iteration ceiling. -/
def c2ExhaustEnv : AgentEnv :=
  { llm := fun _ _ => .ok { finish_reason := .tool_calls },
    llmStream := fun _ => .ok [],
    db := fun _ => .ok [] [] }

/-! ## Scanner unfolding lemmas -/

/-- Length of `dropWhile` never exceeds the input length. -/
theorem dropWhile_length_le (p : α → Bool) (l : List α) :
    (l.dropWhile p).length ≤ l.length := by
  induction l with
  | nil => simp [List.dropWhile]
  | cons a l ih =>
    by_cases h : p a
    · simp [List.dropWhile, h]; omega
    · simp [List.dropWhile, h]

/-- The fuel is irrelevant once it covers the input length. -/
theorem tokensF_irrel : ∀ (f g : Nat) (l : List Char),
    l.length ≤ f → l.length ≤ g → tokensF f l = tokensF g l := by
  intro f
  induction f with
  | zero =>
    intro g l hf _
    have : l = [] := List.eq_nil_of_length_eq_zero (by omega)
    subst this
    cases g <;> rfl
  | succ f ih =>
    intro g l hf hg
    cases l with
    | nil => cases g <;> rfl
    | cons c rest =>
      cases g with
      | zero => simp at hg
      | succ g =>
        simp only [tokensF]
        by_cases hw : isWordChar c
        · simp only [hw, if_true]
          have hd := dropWhile_length_le isWordChar rest
          simp only [List.length_cons] at hf hg
          rw [ih g (rest.dropWhile isWordChar) (by omega) (by omega)]
        · simp only [hw, if_false]
          simp only [List.length_cons] at hf hg
          exact ih g rest (by omega) (by omega)

/-- Unfolding equation for `tokens` on a nonempty input. -/
theorem tokens_cons (c : Char) (rest : List Char) :
    tokens (c :: rest) =
      if isWordChar c then
        (c :: rest.takeWhile isWordChar) :: tokens (rest.dropWhile isWordChar)
      else tokens rest := by
  show tokensF (c :: rest).length (c :: rest) = _
  simp only [List.length_cons, tokensF]
  by_cases hw : isWordChar c
  · simp only [hw, if_true]
    rw [tokensF_irrel rest.length (rest.dropWhile isWordChar).length (rest.dropWhile isWordChar)
      (dropWhile_length_le isWordChar rest) (Nat.le_refl _)]
    rfl
  · simp only [hw, if_false]
    rfl

/-- A successful `matchLimitAt` consumes at least one character. -/
theorem matchLimitAt_len_pos {l : List Char} {v n : Nat}
    (h : matchLimitAt l = some (v, n)) : 1 ≤ n := by
  unfold matchLimitAt at h
  split at h
  · dsimp only at h
    split at h
    · exact absurd h (by simp)
    · split at h
      · exact absurd h (by simp)
      · split at h
        · simp only [Option.some.injEq, Prod.mk.injEq] at h
          omega
        · split at h
          · exact absurd h (by simp)
          · simp only [Option.some.injEq, Prod.mk.injEq] at h
            omega
  · exact absurd h (by simp)

/-- The text after the first match is strictly shorter than the input. -/
theorem findFirstLimit_post_length :
    ∀ (pw : Bool) (l pre : List Char) (v : Nat) (post : List Char),
      findFirstLimit pw l = some (pre, v, post) → post.length < l.length := by
  intro pw l
  induction l generalizing pw with
  | nil => intro pre v post h; simp [findFirstLimit] at h
  | cons c rest ih =>
    intro pre v post h
    unfold findFirstLimit at h
    rcases hm : (if pw then none else matchLimitAt (c :: rest)) with _ | ⟨v', n⟩
    · rw [hm] at h
      rcases hf : findFirstLimit (isWordChar c) rest with _ | ⟨⟨pre', v'', post'⟩⟩
      · rw [hf] at h; simp at h
      · rw [hf] at h
        simp only [Option.some.injEq, Prod.mk.injEq] at h
        obtain ⟨-, -, hp⟩ := h
        subst hp
        have := ih (isWordChar c) pre' v'' post' hf
        simp only [List.length_cons]; omega
    · rw [hm] at h
      simp only [Option.some.injEq, Prod.mk.injEq] at h
      obtain ⟨-, -, hp⟩ := h
      subst hp
      have hn : 1 ≤ n := by
        by_cases hpw : pw
        · simp [hpw] at hm
        · simp only [hpw, if_false] at hm
          exact matchLimitAt_len_pos hm
      simp only [List.length_drop, List.length_cons]
      omega

/-- The fuel is irrelevant once it covers the input length. -/
theorem limitMatchesF_irrel : ∀ (f g : Nat) (pw : Bool) (l : List Char),
    l.length ≤ f → l.length ≤ g → limitMatchesF f pw l = limitMatchesF g pw l := by
  intro f
  induction f with
  | zero =>
    intro g pw l hf _
    have : l = [] := List.eq_nil_of_length_eq_zero (by omega)
    subst this
    cases g with
    | zero => rfl
    | succ g => simp [limitMatchesF, findFirstLimit]
  | succ f ih =>
    intro g pw l hf hg
    cases g with
    | zero =>
      have : l = [] := List.eq_nil_of_length_eq_zero (by omega)
      subst this
      simp [limitMatchesF, findFirstLimit]
    | succ g =>
      simp only [limitMatchesF]
      rcases hffl : findFirstLimit pw l with _ | ⟨⟨pre, v, post⟩⟩
      · rfl
      · simp only [hffl]
        have := findFirstLimit_post_length pw l pre v post hffl
        rw [ih g true post (by omega) (by omega)]

/-- Unfolding equation for `limitMatchesAux`. -/
theorem limitMatchesAux_eq (pw : Bool) (l : List Char) :
    limitMatchesAux pw l =
      match findFirstLimit pw l with
      | none => []
      | some (_, v, post) => v :: limitMatchesAux true post := by
  show limitMatchesF l.length pw l = _
  cases l with
  | nil => simp [limitMatchesF, findFirstLimit]
  | cons c rest =>
    simp only [List.length_cons, limitMatchesF]
    rcases hffl : findFirstLimit pw (c :: rest) with _ | ⟨⟨pre, v, post⟩⟩
    · rfl
    · simp only [hffl]
      have := findFirstLimit_post_length pw (c :: rest) pre v post hffl
      simp only [List.length_cons] at this
      rw [limitMatchesF_irrel rest.length post.length true post (by omega) (Nat.le_refl _)]
      rfl

/-- The fuel is irrelevant once it covers the input length. -/
theorem subLimitsF_irrel : ∀ (f g : Nat) (pw : Bool) (l : List Char),
    l.length ≤ f → l.length ≤ g → subLimitsF f pw l = subLimitsF g pw l := by
  intro f
  induction f with
  | zero =>
    intro g pw l hf _
    have : l = [] := List.eq_nil_of_length_eq_zero (by omega)
    subst this
    cases g with
    | zero => rfl
    | succ g => simp [subLimitsF, findFirstLimit]
  | succ f ih =>
    intro g pw l hf hg
    cases g with
    | zero =>
      have : l = [] := List.eq_nil_of_length_eq_zero (by omega)
      subst this
      simp [subLimitsF, findFirstLimit]
    | succ g =>
      simp only [subLimitsF]
      rcases hffl : findFirstLimit pw l with _ | ⟨⟨pre, v, post⟩⟩
      · rfl
      · simp only [hffl]
        have := findFirstLimit_post_length pw l pre v post hffl
        rw [ih g true post (by omega) (by omega)]

/-- Unfolding equation for `subLimitsAux`. -/
theorem subLimitsAux_eq (pw : Bool) (l : List Char) :
    subLimitsAux pw l =
      match findFirstLimit pw l with
      | none => l
      | some (pre, _, post) => pre ++ limitRepl ++ subLimitsAux true post := by
  show subLimitsF l.length pw l = _
  cases l with
  | nil => simp [subLimitsF, findFirstLimit]
  | cons c rest =>
    simp only [List.length_cons, subLimitsF]
    rcases hffl : findFirstLimit pw (c :: rest) with _ | ⟨⟨pre, v, post⟩⟩
    · rfl
    · simp only [hffl]
      have := findFirstLimit_post_length pw (c :: rest) pre v post hffl
      simp only [List.length_cons] at this
      rw [subLimitsF_irrel rest.length post.length true post (by omega) (Nat.le_refl _)]
      rfl

/-- The fuel is irrelevant once it exceeds the number of available
tuples. -/
theorem fetchRowsF_irrel (columns : List String) (exhaustRaises : Option String) :
    ∀ (f g : Nat) (avail : List (List String)) (rows : List DbRow),
      avail.length < f → avail.length < g →
      fetchRowsF columns exhaustRaises f avail rows =
        fetchRowsF columns exhaustRaises g avail rows := by
  intro f
  induction f with
  | zero => intro g avail rows hf _; omega
  | succ f ih =>
    intro g avail rows hf hg
    cases g with
    | zero => omega
    | succ g =>
      simp only [fetchRowsF]
      by_cases hlt : rows.length < HARD_ROW_LIMIT
      · simp only [hlt, if_true]
        by_cases hb : (avail.take (HARD_ROW_LIMIT - rows.length)).isEmpty
        · simp only [hb, if_true]
        · simp only [hb, if_false]
          have hne : avail ≠ [] := by
            rintro rfl
            simp at hb
          have hpos : 0 < avail.length := List.length_pos.mpr hne
          apply ih
          · simp only [List.length_drop]; omega
          · simp only [List.length_drop]; omega
      · simp only [hlt, if_false]

/-- Unfolding equation for `fetchRows`. -/
theorem fetchRows_eq (columns : List String) (exhaustRaises : Option String)
    (avail : List (List String)) (rows : List DbRow) :
    fetchRows columns exhaustRaises avail rows =
      if rows.length < HARD_ROW_LIMIT then
        if (avail.take (HARD_ROW_LIMIT - rows.length)).isEmpty then
          match exhaustRaises with
          | some m => .error m
          | none => .ok rows
        else
          fetchRows columns exhaustRaises (avail.drop (HARD_ROW_LIMIT - rows.length))
            (rows ++ (avail.take (HARD_ROW_LIMIT - rows.length)).map (zipRow columns))
      else .ok rows := by
  show fetchRowsF columns exhaustRaises (avail.length + 1) avail rows = _
  simp only [fetchRowsF]
  by_cases hlt : rows.length < HARD_ROW_LIMIT
  · simp only [hlt, if_true]
    by_cases hb : (avail.take (HARD_ROW_LIMIT - rows.length)).isEmpty
    · simp only [hb, if_true]
    · simp only [hb, if_false]
      have hne : avail ≠ [] := by
        rintro rfl
        simp at hb
      have hpos : 0 < avail.length := List.length_pos.mpr hne
      apply fetchRowsF_irrel
      · simp only [List.length_drop]; omega
      · simp only [List.length_drop]; omega
  · simp only [hlt, if_false]

/-! ## List and character-class helpers -/

/-- Span over an append whose left part is all `p`. -/
theorem takeWhile_append_pos (p : α → Bool) (l m : List α) (h : l.all p = true) :
    (l ++ m).takeWhile p = l ++ m.takeWhile p := by
  induction l with
  | nil => simp
  | cons a l ih =>
    simp only [List.all_cons, Bool.and_eq_true] at h
    simp [List.takeWhile, h.1, ih h.2]

/-- Span over an append whose left part is not all `p`. -/
theorem takeWhile_append_neg (p : α → Bool) (l m : List α) (h : l.all p = false) :
    (l ++ m).takeWhile p = l.takeWhile p := by
  induction l with
  | nil => simp at h
  | cons a l ih =>
    simp only [List.all_cons, Bool.and_eq_false_iff] at h
    rcases h with h | h
    · simp [List.takeWhile, h]
    · by_cases ha : p a
      · simp [List.takeWhile, ha, ih h]
      · simp [List.takeWhile, ha]

/-- Remainder over an append whose left part is all `p`. -/
theorem dropWhile_append_pos (p : α → Bool) (l m : List α) (h : l.all p = true) :
    (l ++ m).dropWhile p = m.dropWhile p := by
  induction l with
  | nil => simp
  | cons a l ih =>
    simp only [List.all_cons, Bool.and_eq_true] at h
    simp [List.dropWhile, h.1, ih h.2]

/-- Remainder over an append whose left part is not all `p`. -/
theorem dropWhile_append_neg (p : α → Bool) (l m : List α) (h : l.all p = false) :
    (l ++ m).dropWhile p = l.dropWhile p ++ m := by
  induction l with
  | nil => simp at h
  | cons a l ih =>
    simp only [List.all_cons, Bool.and_eq_false_iff] at h
    rcases h with h | h
    · simp [List.dropWhile, h]
    · by_cases ha : p a
      · simp [List.dropWhile, ha, ih h]
      · simp [List.dropWhile, ha]

/-- A list that is not all `p` has a `p`-violating head after
`dropWhile p`. -/
theorem dropWhile_head_of_not_all (p : α → Bool) (l : List α) (h : l.all p = false) :
    ∃ z zs, l.dropWhile p = z :: zs ∧ p z = false := by
  induction l with
  | nil => simp at h
  | cons a l ih =>
    simp only [List.all_cons, Bool.and_eq_false_iff] at h
    by_cases ha : p a
    · rcases h with h | h
      · rw [ha] at h; cases h
      · rcases ih h with ⟨z, zs, hz, hp⟩
        exact ⟨z, zs, by simp [List.dropWhile, ha, hz], hp⟩
    · exact ⟨a, l, by simp [List.dropWhile, ha], by simpa using ha⟩

/-- Decompose a list whose image under `f` is a five-element list. -/
theorem map_eq_five {f : α → β} {l : List α} {y1 y2 y3 y4 y5 : β}
    (h : l.map f = [y1, y2, y3, y4, y5]) :
    ∃ x1 x2 x3 x4 x5, l = [x1, x2, x3, x4, x5] ∧
      f x1 = y1 ∧ f x2 = y2 ∧ f x3 = y3 ∧ f x4 = y4 ∧ f x5 = y5 := by
  rcases l with _ | ⟨x1, _ | ⟨x2, _ | ⟨x3, _ | ⟨x4, _ | ⟨x5, _ | ⟨x6, l⟩⟩⟩⟩⟩⟩ <;>
    simp_all
  exact ⟨x1, x2, x3, x4, x5, ⟨rfl, rfl, rfl, rfl, rfl⟩, h⟩

/-- A character whose upper-cased image is an upper-case letter is a
word character and is neither whitespace nor a digit. -/
theorem classes_of_upper_alpha {x : Char} (h : isUpperAlpha (pyUpper x) = true) :
    pyIsSpace x = false ∧ pyIsDigit x = false ∧ isWordChar x = true := by
  unfold pyUpper at h
  by_cases hl : 97 ≤ x.toNat && x.toNat ≤ 122
  · simp only [Bool.and_eq_true, decide_eq_true_eq] at hl
    refine ⟨?_, ?_, ?_⟩
    · unfold pyIsSpace
      simp only [Bool.or_eq_false_iff, decide_eq_false_iff_not]
      omega
    · unfold pyIsDigit
      simp only [Bool.and_eq_false_iff, decide_eq_false_iff_not]
      omega
    · unfold isWordChar
      simp only [Bool.or_eq_true, Bool.and_eq_true, decide_eq_true_eq]
      omega
  · rw [if_neg hl] at h
    unfold isUpperAlpha at h
    simp only [Bool.and_eq_true, decide_eq_true_eq] at h
    refine ⟨?_, ?_, ?_⟩
    · unfold pyIsSpace
      simp only [Bool.or_eq_false_iff, decide_eq_false_iff_not]
      omega
    · unfold pyIsDigit
      simp only [Bool.and_eq_false_iff, decide_eq_false_iff_not]
      omega
    · unfold isWordChar
      simp only [Bool.or_eq_true, Bool.and_eq_true, decide_eq_true_eq]
      omega

/-- Every character of a candidate `LIMIT` word is a word character,
not whitespace, not a digit. -/
theorem classes_of_limit_word {lm5 : List Char}
    (h : lm5.map pyUpper = "LIMIT".toList) :
    ∀ x ∈ lm5, pyIsSpace x = false ∧ pyIsDigit x = false ∧ isWordChar x = true := by
  intro x hx
  apply classes_of_upper_alpha
  have hm : pyUpper x ∈ "LIMIT".toList := by
    rw [← h]
    exact List.mem_map_of_mem pyUpper hx
  have h5 : "LIMIT".toList = ['L', 'I', 'M', 'I', 'T'] := rfl
  rw [h5] at hm
  simp only [List.mem_cons, List.not_mem_nil, or_false] at hm
  rcases hm with h' | h' | h' | h' | h' <;> rw [h'] <;> decide

/-- A digit is not whitespace. -/
theorem digit_not_space {x : Char} (h : pyIsDigit x = true) : pyIsSpace x = false := by
  unfold pyIsDigit at h
  unfold pyIsSpace
  simp only [Bool.and_eq_true, decide_eq_true_eq] at h
  simp only [Bool.or_eq_false_iff, decide_eq_false_iff_not]
  omega

/-- A digit is a word character. -/
theorem digit_is_word {x : Char} (h : pyIsDigit x = true) : isWordChar x = true := by
  unfold pyIsDigit at h
  unfold isWordChar
  simp only [Bool.and_eq_true, decide_eq_true_eq] at h
  simp only [Bool.or_eq_true, Bool.and_eq_true, decide_eq_true_eq]
  omega

/-- A non-word character is not a digit. -/
theorem not_digit_of_not_word {x : Char} (h : isWordChar x = false) :
    pyIsDigit x = false := by
  by_cases hd : pyIsDigit x
  · rw [digit_is_word hd] at h; cases h
  · simpa using hd

/-! ## `matchLimitAt` characterization -/

/-- Decomposition of a successful match: the input splits into a
case-variant of `LIMIT`, a nonempty whitespace run, a nonempty digit
run, and a remainder that is empty or starts with a non-word
character. -/
theorem matchLimitAt_some_decomp {l : List Char} {v n : Nat}
    (h : matchLimitAt l = some (v, n)) :
    ∃ lm5 ws ds r2, l = lm5 ++ (ws ++ (ds ++ r2)) ∧
      lm5.map pyUpper = "LIMIT".toList ∧ lm5.length = 5 ∧
      ws ≠ [] ∧ ws.all pyIsSpace = true ∧
      ds ≠ [] ∧ ds.all pyIsDigit = true ∧
      v = digitsToNat ds ∧ n = 5 + ws.length + ds.length ∧
      (r2 = [] ∨ ∃ x xs, r2 = x :: xs ∧ isWordChar x = false) := by
  unfold matchLimitAt at h
  by_cases hcond : (l.take 5).map pyUpper = "LIMIT".toList
  · rw [if_pos hcond] at h
    dsimp only at h
    refine ⟨l.take 5, (l.drop 5).takeWhile pyIsSpace,
      ((l.drop 5).dropWhile pyIsSpace).takeWhile pyIsDigit,
      ((l.drop 5).dropWhile pyIsSpace).dropWhile pyIsDigit, ?_, hcond, ?_, ?_⟩
    · rw [List.takeWhile_append_dropWhile, List.takeWhile_append_dropWhile,
        List.take_append_drop]
    · have := congrArg List.length hcond
      simpa using this
    · split at h
      · cases h
      · split at h
        · cases h
        · rename_i hws hds
          split at h
          · rename_i hr2
            simp only [Option.some.injEq, Prod.mk.injEq] at h
            exact ⟨hws, List.all_takeWhile, hds, List.all_takeWhile, h.1.symm, h.2.symm,
              Or.inl hr2⟩
          · rename_i x xs hr2
            split at h
            · cases h
            · rename_i hword
              simp only [Option.some.injEq, Prod.mk.injEq] at h
              exact ⟨hws, List.all_takeWhile, hds, List.all_takeWhile, h.1.symm, h.2.symm,
                Or.inr ⟨x, xs, hr2, by simpa using hword⟩⟩
  · rw [if_neg hcond] at h
    cases h

/-- Introduction rule: a list of that shape matches, with the group
value and total length determined by the runs. -/
theorem matchLimitAt_intro {lm5 ws ds r2 : List Char}
    (hlm : lm5.map pyUpper = "LIMIT".toList)
    (hws : ws ≠ []) (hwsall : ws.all pyIsSpace = true)
    (hds : ds ≠ []) (hdsall : ds.all pyIsDigit = true)
    (hr2 : r2 = [] ∨ ∃ x xs, r2 = x :: xs ∧ isWordChar x = false) :
    matchLimitAt (lm5 ++ (ws ++ (ds ++ r2))) =
      some (digitsToNat ds, 5 + ws.length + ds.length) := by
  have hlen : lm5.length = 5 := by
    have := congrArg List.length hlm
    simpa using this
  rcases ds with _ | ⟨d, ds'⟩
  · cases hds rfl
  have hd : pyIsDigit d = true := by
    simp only [List.all_cons, Bool.and_eq_true] at hdsall
    exact hdsall.1
  have htake : (lm5 ++ (ws ++ (d :: ds' ++ r2))).take 5 = lm5 := by
    rw [← hlen]
    exact List.take_left _ _
  have hdrop : (lm5 ++ (ws ++ (d :: ds' ++ r2))).drop 5 = ws ++ (d :: ds' ++ r2) :=
    List.drop_left' hlen
  unfold matchLimitAt
  rw [htake, hlm, if_pos rfl]
  dsimp only
  rw [hdrop]
  have hws_take : (ws ++ (d :: ds' ++ r2)).takeWhile pyIsSpace = ws := by
    rw [takeWhile_append_pos pyIsSpace ws _ hwsall]
    have : (d :: (ds' ++ r2)).takeWhile pyIsSpace = [] := by
      simp [List.takeWhile, digit_not_space hd]
    simpa using this
  have hws_drop : (ws ++ (d :: ds' ++ r2)).dropWhile pyIsSpace = d :: ds' ++ r2 := by
    rw [dropWhile_append_pos pyIsSpace ws _ hwsall]
    simp [List.dropWhile, digit_not_space hd]
  rw [hws_take, hws_drop]
  have hds_take : ((d :: ds') ++ r2).takeWhile pyIsDigit = d :: ds' := by
    rw [takeWhile_append_pos pyIsDigit _ _ hdsall]
    rcases hr2 with rfl | ⟨x, xs, rfl, hx⟩
    · simp
    · simp [List.takeWhile, not_digit_of_not_word hx]
  have hds_drop : ((d :: ds') ++ r2).dropWhile pyIsDigit = r2 := by
    rw [dropWhile_append_pos pyIsDigit _ _ hdsall]
    rcases hr2 with rfl | ⟨x, xs, rfl, hx⟩
    · simp
    · simp [List.dropWhile, not_digit_of_not_word hx]
  rw [hds_take, hds_drop]
  rw [if_neg hws, if_neg (by simp : ¬ (d :: ds' = []))]
  rcases hr2 with rfl | ⟨x, xs, rfl, hx⟩
  · rfl
  · simp [hx]

/-- Computation rule: `take 5` of five explicit heads. -/
theorem take5_cons (c1 c2 c3 c4 c5 : Char) (rest : List Char) :
    (c1 :: c2 :: c3 :: c4 :: c5 :: rest).take 5 = [c1, c2, c3, c4, c5] := rfl

/-- Computation rule: `drop 5` of five explicit heads. -/
theorem drop5_cons (c1 c2 c3 c4 c5 : Char) (rest : List Char) :
    (c1 :: c2 :: c3 :: c4 :: c5 :: rest).drop 5 = rest := rfl

/-- Congruence of the match attempt across a `LIMIT`-shaped region: an
attempt starting strictly before a five-character region whose
upper-case image is `LIMIT` never inspects anything past that region
(its whitespace and digit runs stop at the region's first letter), so
the verdict only depends on the text before the region and on its
upper-case image.  Hence two texts agreeing before such regions give the
same verdict, whatever follows the regions. -/
theorem matchLimitAt_congr {u a b t₁ t₂ : List Char} (hu : u ≠ [])
    (ha : a.map pyUpper = "LIMIT".toList) (hb : b.map pyUpper = "LIMIT".toList) :
    matchLimitAt (u ++ (a ++ t₁)) = matchLimitAt (u ++ (b ++ t₂)) := by
  obtain ⟨a1, a2, a3, a4, a5, rfl, ua1, ua2, ua3, ua4, ua5⟩ := map_eq_five ha
  obtain ⟨b1, b2, b3, b4, b5, rfl, ub1, ub2, ub3, ub4, ub5⟩ := map_eq_five hb
  obtain ⟨sa1, da1, wa1⟩ := @classes_of_upper_alpha a1 (by rw [ua1]; decide)
  obtain ⟨sb1, db1, wb1⟩ := @classes_of_upper_alpha b1 (by rw [ub1]; decide)
  rcases u with _ | ⟨u1, _ | ⟨u2, _ | ⟨u3, _ | ⟨u4, _ | ⟨u5, ur⟩⟩⟩⟩⟩
  · exact absurd rfl hu
  · -- window [u1, a1, a2, a3, a4] cannot spell LIMIT: its last letter is I
    have hA : matchLimitAt ([u1] ++ ([a1, a2, a3, a4, a5] ++ t₁)) = none := by
      have he : [u1] ++ ([a1, a2, a3, a4, a5] ++ t₁) = u1 :: a1 :: a2 :: a3 :: a4 :: (a5 :: t₁) := by
        simp
      unfold matchLimitAt
      rw [he, take5_cons]
      rw [if_neg (by simp [ua1, ua2, ua3, ua4])]
    have hB : matchLimitAt ([u1] ++ ([b1, b2, b3, b4, b5] ++ t₂)) = none := by
      have he : [u1] ++ ([b1, b2, b3, b4, b5] ++ t₂) = u1 :: b1 :: b2 :: b3 :: b4 :: (b5 :: t₂) := by
        simp
      unfold matchLimitAt
      rw [he, take5_cons]
      rw [if_neg (by simp [ub1, ub2, ub3, ub4])]
    rw [hA, hB]
  · have hA : matchLimitAt ([u1, u2] ++ ([a1, a2, a3, a4, a5] ++ t₁)) = none := by
      have he : [u1, u2] ++ ([a1, a2, a3, a4, a5] ++ t₁)
          = u1 :: u2 :: a1 :: a2 :: a3 :: (a4 :: a5 :: t₁) := by simp
      unfold matchLimitAt
      rw [he, take5_cons]
      rw [if_neg (by simp [ua1, ua2, ua3])]
    have hB : matchLimitAt ([u1, u2] ++ ([b1, b2, b3, b4, b5] ++ t₂)) = none := by
      have he : [u1, u2] ++ ([b1, b2, b3, b4, b5] ++ t₂)
          = u1 :: u2 :: b1 :: b2 :: b3 :: (b4 :: b5 :: t₂) := by simp
      unfold matchLimitAt
      rw [he, take5_cons]
      rw [if_neg (by simp [ub1, ub2, ub3])]
    rw [hA, hB]
  · have hA : matchLimitAt ([u1, u2, u3] ++ ([a1, a2, a3, a4, a5] ++ t₁)) = none := by
      have he : [u1, u2, u3] ++ ([a1, a2, a3, a4, a5] ++ t₁)
          = u1 :: u2 :: u3 :: a1 :: a2 :: (a3 :: a4 :: a5 :: t₁) := by simp
      unfold matchLimitAt
      rw [he, take5_cons]
      rw [if_neg (by simp [ua1, ua2])]
    have hB : matchLimitAt ([u1, u2, u3] ++ ([b1, b2, b3, b4, b5] ++ t₂)) = none := by
      have he : [u1, u2, u3] ++ ([b1, b2, b3, b4, b5] ++ t₂)
          = u1 :: u2 :: u3 :: b1 :: b2 :: (b3 :: b4 :: b5 :: t₂) := by simp
      unfold matchLimitAt
      rw [he, take5_cons]
      rw [if_neg (by simp [ub1, ub2])]
    rw [hA, hB]
  · have hA : matchLimitAt ([u1, u2, u3, u4] ++ ([a1, a2, a3, a4, a5] ++ t₁)) = none := by
      have he : [u1, u2, u3, u4] ++ ([a1, a2, a3, a4, a5] ++ t₁)
          = u1 :: u2 :: u3 :: u4 :: a1 :: (a2 :: a3 :: a4 :: a5 :: t₁) := by simp
      unfold matchLimitAt
      rw [he, take5_cons]
      rw [if_neg (by simp [ua1])]
    have hB : matchLimitAt ([u1, u2, u3, u4] ++ ([b1, b2, b3, b4, b5] ++ t₂)) = none := by
      have he : [u1, u2, u3, u4] ++ ([b1, b2, b3, b4, b5] ++ t₂)
          = u1 :: u2 :: u3 :: u4 :: b1 :: (b2 :: b3 :: b4 :: b5 :: t₂) := by simp
      unfold matchLimitAt
      rw [he, take5_cons]
      rw [if_neg (by simp [ub1])]
    rw [hA, hB]
  · -- main case: the five-character window lies inside `u`
    have heA : (u1 :: u2 :: u3 :: u4 :: u5 :: ur) ++ ([a1, a2, a3, a4, a5] ++ t₁)
        = u1 :: u2 :: u3 :: u4 :: u5 :: (ur ++ (a1 :: a2 :: a3 :: a4 :: a5 :: t₁)) := by simp
    have heB : (u1 :: u2 :: u3 :: u4 :: u5 :: ur) ++ ([b1, b2, b3, b4, b5] ++ t₂)
        = u1 :: u2 :: u3 :: u4 :: u5 :: (ur ++ (b1 :: b2 :: b3 :: b4 :: b5 :: t₂)) := by simp
    rw [heA, heB]
    unfold matchLimitAt
    rw [take5_cons, take5_cons, drop5_cons, drop5_cons]
    by_cases hcond : ([u1, u2, u3, u4, u5].map pyUpper) = "LIMIT".toList
    · rw [if_pos hcond, if_pos hcond]
      dsimp only
      rcases hall : ur.all pyIsSpace with _ | _
      · -- some non-space character inside `ur`
        obtain ⟨z, zs, hz, hpz⟩ := dropWhile_head_of_not_all pyIsSpace ur hall
        rw [takeWhile_append_neg pyIsSpace ur _ hall, takeWhile_append_neg pyIsSpace ur _ hall,
          dropWhile_append_neg pyIsSpace ur _ hall, dropWhile_append_neg pyIsSpace ur _ hall,
          hz]
        rcases hzall : (z :: zs).all pyIsDigit with _ | _
        · -- the digit run stops inside `z :: zs` at `y`
          obtain ⟨y, ys, hy, hpy⟩ := dropWhile_head_of_not_all pyIsDigit (z :: zs) hzall
          rw [takeWhile_append_neg pyIsDigit (z :: zs) _ hzall,
            takeWhile_append_neg pyIsDigit (z :: zs) _ hzall,
            dropWhile_append_neg pyIsDigit (z :: zs) _ hzall,
            dropWhile_append_neg pyIsDigit (z :: zs) _ hzall,
            hy]
          simp only [List.cons_append]
        · -- `z :: zs` is all digits; the run stops at the region letter
          rw [takeWhile_append_pos pyIsDigit (z :: zs) _ hzall,
            takeWhile_append_pos pyIsDigit (z :: zs) _ hzall,
            dropWhile_append_pos pyIsDigit (z :: zs) _ hzall,
            dropWhile_append_pos pyIsDigit (z :: zs) _ hzall]
          rw [show (a1 :: a2 :: a3 :: a4 :: a5 :: t₁).takeWhile pyIsDigit = [] by
              simp [List.takeWhile, da1],
            show (b1 :: b2 :: b3 :: b4 :: b5 :: t₂).takeWhile pyIsDigit = [] by
              simp [List.takeWhile, db1],
            show (a1 :: a2 :: a3 :: a4 :: a5 :: t₁).dropWhile pyIsDigit
                = a1 :: a2 :: a3 :: a4 :: a5 :: t₁ by simp [List.dropWhile, da1],
            show (b1 :: b2 :: b3 :: b4 :: b5 :: t₂).dropWhile pyIsDigit
                = b1 :: b2 :: b3 :: b4 :: b5 :: t₂ by simp [List.dropWhile, db1]]
          simp [wa1, wb1]
      · -- `ur` is all whitespace: both runs stop at the region letter
        rw [takeWhile_append_pos pyIsSpace ur _ hall, takeWhile_append_pos pyIsSpace ur _ hall,
          dropWhile_append_pos pyIsSpace ur _ hall, dropWhile_append_pos pyIsSpace ur _ hall]
        rw [show (a1 :: a2 :: a3 :: a4 :: a5 :: t₁).takeWhile pyIsSpace = [] by
            simp [List.takeWhile, sa1],
          show (b1 :: b2 :: b3 :: b4 :: b5 :: t₂).takeWhile pyIsSpace = [] by
            simp [List.takeWhile, sb1],
          show (a1 :: a2 :: a3 :: a4 :: a5 :: t₁).dropWhile pyIsSpace
              = a1 :: a2 :: a3 :: a4 :: a5 :: t₁ by simp [List.dropWhile, sa1],
          show (b1 :: b2 :: b3 :: b4 :: b5 :: t₂).dropWhile pyIsSpace
              = b1 :: b2 :: b3 :: b4 :: b5 :: t₂ by simp [List.dropWhile, sb1]]
        rw [show (a1 :: a2 :: a3 :: a4 :: a5 :: t₁).takeWhile pyIsDigit = [] by
            simp [List.takeWhile, da1],
          show (b1 :: b2 :: b3 :: b4 :: b5 :: t₂).takeWhile pyIsDigit = [] by
            simp [List.takeWhile, db1]]
        simp
    · rw [if_neg hcond, if_neg hcond]

/-! ## `findFirstLimit` structure -/

/-- Explicit character form of the pattern word. -/
theorem LIMIT_toList : "LIMIT".toList = ['L', 'I', 'M', 'I', 'T'] := rfl

/-- Explicit character form of the replacement text. -/
theorem limitRepl_eq : limitRepl = "LIMIT 200".toList := rfl

/-- A list that is all `p` is its own span. -/
theorem takeWhile_all_self (p : α → Bool) (l : List α) (h : l.all p = true) :
    l.takeWhile p = l := by
  induction l with
  | nil => rfl
  | cons a l ih =>
    simp only [List.all_cons, Bool.and_eq_true] at h
    simp [List.takeWhile, h.1, ih h.2]

/-- A list that is all `p` has an empty remainder. -/
theorem dropWhile_all_nil (p : α → Bool) (l : List α) (h : l.all p = true) :
    l.dropWhile p = [] := by
  induction l with
  | nil => rfl
  | cons a l ih =>
    simp only [List.all_cons, Bool.and_eq_true] at h
    simp [List.dropWhile, h.1, ih h.2]

/-- Scanning step when the previous character is a word character: no
attempt is made at this position. -/
theorem ffl_cons_true (c : Char) (rest : List Char) :
    findFirstLimit true (c :: rest) =
      (findFirstLimit (isWordChar c) rest).map (fun p => (c :: p.1, p.2.1, p.2.2)) := by
  rw [findFirstLimit, if_pos rfl]
  rcases hf : findFirstLimit (isWordChar c) rest with _ | ⟨⟨pre, v, post⟩⟩ <;> rfl

/-- Scanning step when the attempt at this position fails. -/
theorem ffl_cons_nomatch {c : Char} {rest : List Char} (pw : Bool)
    (h : matchLimitAt (c :: rest) = none) :
    findFirstLimit pw (c :: rest) =
      (findFirstLimit (isWordChar c) rest).map (fun p => (c :: p.1, p.2.1, p.2.2)) := by
  cases pw
  · rw [findFirstLimit, if_neg (by simp), h]
    rcases hf : findFirstLimit (isWordChar c) rest with _ | ⟨⟨pre, v, post⟩⟩ <;> rfl
  · exact ffl_cons_true c rest

/-- Scanning step when the attempt at this position succeeds (previous
character not a word character). -/
theorem ffl_cons_match {c : Char} {rest : List Char} {v n : Nat}
    (h : matchLimitAt (c :: rest) = some (v, n)) :
    findFirstLimit false (c :: rest) = some ([], v, (c :: rest).drop n) := by
  rw [findFirstLimit, if_neg (by simp), h]

/-- Inversion of a failed scan. -/
theorem ffl_none_inv {pw : Bool} {c : Char} {rest : List Char}
    (h : findFirstLimit pw (c :: rest) = none) :
    (pw = true ∨ matchLimitAt (c :: rest) = none) ∧
      findFirstLimit (isWordChar c) rest = none := by
  rw [findFirstLimit] at h
  rcases hm : (if pw = true then none else matchLimitAt (c :: rest)) with _ | ⟨⟨v, n⟩⟩
  · rw [hm] at h
    rcases hf : findFirstLimit (isWordChar c) rest with _ | ⟨⟨pre, v, post⟩⟩
    · constructor
      · by_cases hpw : pw
        · exact Or.inl hpw
        · right
          simpa [hpw] using hm
      · rfl
    · rw [hf] at h
      simp at h
  · rw [hm] at h
    simp at h

/-- The attempt at the head of the replacement text, followed by
nothing or by a non-word character, matches with value 200 and length
9. -/
theorem matchLimitAt_replX {X : List Char}
    (hX : X = [] ∨ ∃ x xs, X = x :: xs ∧ isWordChar x = false) :
    matchLimitAt (limitRepl ++ X) = some (MAX_ROWS, 9) := by
  have he : limitRepl ++ X = "LIMIT".toList ++ ([' '] ++ ("200".toList ++ X)) := rfl
  rw [he]
  rw [matchLimitAt_intro (by decide) (by decide) (by decide) (by decide) (by decide) hX]
  decide

/-- Decomposition of a successful scan: the input splits into the
unmatched portion (which ends, if nonempty, in a non-word character —
the `\b` witness), a `LIMIT`-shaped word, whitespace, digits, and the
remainder. -/
theorem findFirstLimit_decomp :
    ∀ (l : List Char) (pw : Bool) (pre : List Char) (v : Nat) (post : List Char),
      findFirstLimit pw l = some (pre, v, post) →
      ∃ lm5 ws ds, l = pre ++ (lm5 ++ (ws ++ (ds ++ post))) ∧
        lm5.map pyUpper = "LIMIT".toList ∧
        ws ≠ [] ∧ ws.all pyIsSpace = true ∧
        ds ≠ [] ∧ ds.all pyIsDigit = true ∧
        v = digitsToNat ds ∧
        (post = [] ∨ ∃ x xs, post = x :: xs ∧ isWordChar x = false) ∧
        (pre = [] → pw = false) ∧
        (∀ pre₀ y, pre = pre₀ ++ [y] → isWordChar y = false) := by
  intro l
  induction l with
  | nil => intro pw pre v post h; simp [findFirstLimit] at h
  | cons c rest ih =>
    intro pw pre v post h
    rw [findFirstLimit] at h
    rcases hm : (if pw = true then none else matchLimitAt (c :: rest)) with _ | ⟨⟨v', n⟩⟩
    · rw [hm] at h
      rcases hf : findFirstLimit (isWordChar c) rest with _ | ⟨⟨pre', v'', post'⟩⟩
      · rw [hf] at h; cases h
      · rw [hf] at h
        simp only [Option.some.injEq, Prod.mk.injEq] at h
        obtain ⟨hpre, hv, hpost⟩ := h
        subst hpre
        subst hv
        subst hpost
        obtain ⟨lm5, ws, ds, hsplit, hlm, hws, hwsall, hds, hdsall, hveq, hshape, hfirst,
          hlast⟩ := ih (isWordChar c) pre' v'' post' hf
        refine ⟨lm5, ws, ds, by rw [List.cons_append, hsplit], hlm, hws, hwsall, hds, hdsall,
          hveq, hshape, ?_, ?_⟩
        · intro hc; cases hc
        intro pre₀ y hy
        rcases pre₀ with _ | ⟨p0, pre₀'⟩
        · simp only [List.nil_append, List.cons.injEq] at hy
          obtain ⟨hcy, hpre'⟩ := hy
          subst hcy
          have := hfirst hpre'
          simpa using this
        · simp only [List.cons_append, List.cons.injEq] at hy
          exact hlast pre₀' y hy.2
    · rw [hm] at h
      simp only [Option.some.injEq, Prod.mk.injEq] at h
      obtain ⟨hpre, hv, hpost⟩ := h
      have hpw : pw = false := by
        by_cases hb : pw
        · rw [if_pos hb] at hm; cases hm
        · simpa using hb
      rw [hpw, if_neg (by simp)] at hm
      obtain ⟨lm5, ws, ds, r2, hsplit, hlm, hlen5, hws, hwsall, hds, hdsall, hvv, hn, hshape⟩ :=
        matchLimitAt_some_decomp hm
      have hpostr2 : post = r2 := by
        have hlenpre : (lm5 ++ (ws ++ ds)).length = n := by
          simp only [List.length_append]
          omega
        have : (c :: rest).drop n = r2 := by
          rw [hsplit, show lm5 ++ (ws ++ (ds ++ r2)) = (lm5 ++ (ws ++ ds)) ++ r2 by simp,
            List.drop_left' hlenpre]
        rw [← hpost, this]
      subst hpostr2
      refine ⟨lm5, ws, ds, ?_, hlm, hws, hwsall, hds, hdsall, ?_, hshape, fun _ => hpw, ?_⟩
      · rw [← hpre, List.nil_append]
        exact hsplit
      · rw [← hv, hvv]
      · intro pre₀ y hy
        rw [← hpre] at hy
        exact absurd hy.symm (by simp)

/-- Stability of the scan under replacing the matched region by the
replacement text: the unmatched prefix still precedes the first match,
which is now the replacement itself. -/
theorem findFirstLimit_stable :
    ∀ (l : List Char) (pw : Bool) (pre : List Char) (v : Nat) (post X : List Char),
      findFirstLimit pw l = some (pre, v, post) →
      (X = [] ∨ ∃ x xs, X = x :: xs ∧ isWordChar x = false) →
      findFirstLimit pw (pre ++ (limitRepl ++ X)) = some (pre, MAX_ROWS, X) := by
  intro l
  induction l with
  | nil => intro pw pre v post X h _; simp [findFirstLimit] at h
  | cons c rest ih =>
    intro pw pre v post X h hX
    rw [findFirstLimit] at h
    rcases hm : (if pw = true then none else matchLimitAt (c :: rest)) with _ | ⟨⟨v', n⟩⟩
    · rw [hm] at h
      rcases hf : findFirstLimit (isWordChar c) rest with _ | ⟨⟨pre', v'', post'⟩⟩
      · rw [hf] at h; cases h
      · rw [hf] at h
        simp only [Option.some.injEq, Prod.mk.injEq] at h
        obtain ⟨hpre, hv, hpost⟩ := h
        subst hpre
        subst hv
        subst hpost
        have hrec := ih (isWordChar c) pre' v'' post' X hf hX
        by_cases hpw : pw
        · -- position skipped by the word-boundary test, on both texts
          subst hpw
          rw [List.cons_append, ffl_cons_true, hrec]
          rfl
        · -- the head attempt failed on the original text; by congruence it
          -- also fails on the rebuilt text
          have hpwf : pw = false := by simpa using hpw
          subst hpwf
          rw [if_neg (by simp)] at hm
          have hnomatch : matchLimitAt (c :: (pre' ++ (limitRepl ++ X))) = none := by
            obtain ⟨lm5, ws, ds, hsplit, hlm, -, -, -, -, -, -, -, -⟩ :=
              findFirstLimit_decomp rest (isWordChar c) pre' v'' post' hf
            have h1 : c :: rest = (c :: pre') ++ (lm5 ++ (ws ++ (ds ++ post'))) := by
              rw [List.cons_append, hsplit]
            have h2 : c :: (pre' ++ (limitRepl ++ X))
                = (c :: pre') ++ ("LIMIT".toList ++ (" 200".toList ++ X)) := rfl
            have hcongr := @matchLimitAt_congr (c :: pre') lm5 "LIMIT".toList
              (ws ++ (ds ++ post')) (" 200".toList ++ X)
              (by simp) hlm (by decide)
            rw [h2, ← hcongr, ← h1]
            exact hm
          rw [List.cons_append, ffl_cons_nomatch _ hnomatch, hrec]
          rfl
    · rw [hm] at h
      simp only [Option.some.injEq, Prod.mk.injEq] at h
      obtain ⟨hpre, hv, hpost⟩ := h
      have hpw : pw = false := by
        by_cases hb : pw
        · rw [if_pos hb] at hm; cases hm
        · simpa using hb
      subst hpw
      rw [← hpre, List.nil_append]
      have hmr := matchLimitAt_replX hX
      have hrepl : limitRepl ++ X = 'L' :: ("IMIT 200".toList ++ X) := rfl
      rw [hrepl] at hmr ⊢
      rw [ffl_cons_match hmr]
      have hdrop : ('L' :: ("IMIT 200".toList ++ X)).drop 9 = X := by
        have : 'L' :: ("IMIT 200".toList ++ X) = "LIMIT 200".toList ++ X := rfl
        rw [this]
        exact List.drop_left' (by decide)
      rw [hdrop]

/-- Substitution on the empty text. -/
theorem subLimitsAux_nil (pw : Bool) : subLimitsAux pw [] = [] := rfl

/-- Substitution step at a position where no match is attempted or the
attempt fails: the character is copied. -/
theorem subLimitsAux_cons_skip {pw : Bool} {c : Char} {rest : List Char}
    (h : pw = true ∨ matchLimitAt (c :: rest) = none) :
    subLimitsAux pw (c :: rest) = c :: subLimitsAux (isWordChar c) rest := by
  have hffl : findFirstLimit pw (c :: rest) =
      (findFirstLimit (isWordChar c) rest).map (fun p => (c :: p.1, p.2.1, p.2.2)) := by
    rcases h with hpw | hm
    · subst hpw
      exact ffl_cons_true c rest
    · exact ffl_cons_nomatch pw hm
  rw [subLimitsAux_eq, hffl, subLimitsAux_eq (isWordChar c) rest]
  rcases hf : findFirstLimit (isWordChar c) rest with _ | ⟨⟨pre, v, post⟩⟩
  · rfl
  · simp

/-- Rewriting every match to the replacement text turns the list of
match values into a constant list of the ceiling: the scan of the
rewritten text finds exactly the replacements. -/
theorem limitMatchesAux_sub (l : List Char) (pw : Bool) :
    limitMatchesAux pw (subLimitsAux pw l) =
      (limitMatchesAux pw l).map (fun _ => MAX_ROWS) := by
  rw [subLimitsAux_eq]
  rcases hffl : findFirstLimit pw l with _ | ⟨⟨pre, v, post⟩⟩
  · rw [limitMatchesAux_eq pw l, hffl]
    rfl
  · have hshape := (findFirstLimit_decomp l pw pre v post hffl).choose_spec.choose_spec.choose_spec.2.2.2.2.2.2.2.1
    have hX : subLimitsAux true post = [] ∨
        ∃ x xs, subLimitsAux true post = x :: xs ∧ isWordChar x = false := by
      rcases hshape with hpost | ⟨x, xs, hpost, hx⟩
      · left
        rw [hpost]
        exact subLimitsAux_nil true
      · right
        rw [hpost, subLimitsAux_cons_skip (Or.inl rfl)]
        exact ⟨x, _, rfl, hx⟩
    have hstable := findFirstLimit_stable l pw pre v post (subLimitsAux true post) hffl hX
    have hassoc : pre ++ limitRepl ++ subLimitsAux true post
        = pre ++ (limitRepl ++ subLimitsAux true post) := by simp
    dsimp only
    rw [hassoc, limitMatchesAux_eq pw (pre ++ (limitRepl ++ subLimitsAux true post)), hstable]
    show MAX_ROWS :: limitMatchesAux true (subLimitsAux true post)
        = (limitMatchesAux pw l).map (fun _ => MAX_ROWS)
    rw [limitMatchesAux_sub post true]
    rw [limitMatchesAux_eq pw l, hffl]
    rfl
termination_by l.length
decreasing_by exact findFirstLimit_post_length _ _ _ _ _ hffl

/-- A failed attempt still fails after appending the injected
`LIMIT 200` text: the whitespace run can only extend into the appended
space, after which the letter `L` stops both the whitespace and digit
runs; a digit run that previously reached the end of the text would have
made the original attempt succeed. -/
theorem matchLimitAt_append_repl {L : List Char} (h : matchLimitAt L = none) :
    matchLimitAt (L ++ (' ' :: limitRepl)) = none := by
  rcases L with _ | ⟨l1, _ | ⟨l2, _ | ⟨l3, _ | ⟨l4, _ | ⟨l5, Lr⟩⟩⟩⟩⟩
  · decide
  · have he : [l1] ++ (' ' :: limitRepl)
        = l1 :: ' ' :: 'L' :: 'I' :: 'M' :: ("IT 200".toList) := rfl
    unfold matchLimitAt
    rw [he, take5_cons]
    rw [if_neg (by
      intro h'
      simp only [List.map_cons, List.map_nil, LIMIT_toList, List.cons.injEq] at h'
      exact absurd h'.2.1 (by decide))]
  · have he : [l1, l2] ++ (' ' :: limitRepl)
        = l1 :: l2 :: ' ' :: 'L' :: 'I' :: ("MIT 200".toList) := rfl
    unfold matchLimitAt
    rw [he, take5_cons]
    rw [if_neg (by
      intro h'
      simp only [List.map_cons, List.map_nil, LIMIT_toList, List.cons.injEq] at h'
      exact absurd h'.2.2.1 (by decide))]
  · have he : [l1, l2, l3] ++ (' ' :: limitRepl)
        = l1 :: l2 :: l3 :: ' ' :: 'L' :: ("IMIT 200".toList) := rfl
    unfold matchLimitAt
    rw [he, take5_cons]
    rw [if_neg (by
      intro h'
      simp only [List.map_cons, List.map_nil, LIMIT_toList, List.cons.injEq] at h'
      exact absurd h'.2.2.2.1 (by decide))]
  · have he : [l1, l2, l3, l4] ++ (' ' :: limitRepl)
        = l1 :: l2 :: l3 :: l4 :: ' ' :: ("LIMIT 200".toList) := rfl
    unfold matchLimitAt
    rw [he, take5_cons]
    rw [if_neg (by
      intro h'
      simp only [List.map_cons, List.map_nil, LIMIT_toList, List.cons.injEq] at h'
      exact absurd h'.2.2.2.2.1 (by decide))]
  · have he : (l1 :: l2 :: l3 :: l4 :: l5 :: Lr) ++ (' ' :: limitRepl)
        = l1 :: l2 :: l3 :: l4 :: l5 :: (Lr ++ (' ' :: limitRepl)) := by simp
    rw [he]
    unfold matchLimitAt at h ⊢
    rw [take5_cons, drop5_cons] at h ⊢
    by_cases hcond : ([l1, l2, l3, l4, l5].map pyUpper) = "LIMIT".toList
    · rw [if_pos hcond] at h ⊢
      dsimp only at h ⊢
      by_cases hall : Lr.all pyIsSpace
      · -- whitespace extends into the appended space and stops at `L`
        rw [takeWhile_append_pos pyIsSpace Lr _ hall,
          dropWhile_append_pos pyIsSpace Lr _ hall]
        rw [show (' ' :: limitRepl).takeWhile pyIsSpace = [' '] from rfl,
          show (' ' :: limitRepl).dropWhile pyIsSpace = limitRepl from rfl]
        rw [show limitRepl.takeWhile pyIsDigit = [] from rfl]
        simp
      · have hallf : Lr.all pyIsSpace = false := by simpa using hall
        obtain ⟨z, zs, hz, hpz⟩ := dropWhile_head_of_not_all pyIsSpace Lr hallf
        rw [takeWhile_append_neg pyIsSpace Lr _ hallf,
          dropWhile_append_neg pyIsSpace Lr _ hallf, hz]
        rw [hz] at h
        by_cases hws : Lr.takeWhile pyIsSpace = []
        · rw [if_pos hws] at h ⊢
        · rw [if_neg hws] at h ⊢
          by_cases hzall : (z :: zs).all pyIsDigit
          · -- the original digit run reached the end of the text, so the
            -- original attempt succeeded: contradiction
            exfalso
            rw [takeWhile_all_self pyIsDigit _ hzall,
              dropWhile_all_nil pyIsDigit _ hzall] at h
            rw [if_neg (by simp)] at h
            cases h
          · have hzallf : (z :: zs).all pyIsDigit = false := by simpa using hzall
            obtain ⟨y, ys, hy, hpy⟩ := dropWhile_head_of_not_all pyIsDigit (z :: zs) hzallf
            rw [takeWhile_append_neg pyIsDigit (z :: zs) _ hzallf,
              dropWhile_append_neg pyIsDigit (z :: zs) _ hzallf, hy]
            rw [hy] at h
            by_cases hds : (z :: zs).takeWhile pyIsDigit = []
            · rw [if_pos hds] at h ⊢
            · rw [if_neg hds] at h ⊢
              simp only [List.cons_append]
              have h' : (if isWordChar y = true then (none : Option (Nat × Nat))
                  else some (digitsToNat ((z :: zs).takeWhile pyIsDigit),
                    5 + (Lr.takeWhile pyIsSpace).length
                      + ((z :: zs).takeWhile pyIsDigit).length)) = none := h
              by_cases hwy : isWordChar y
              · rw [if_pos hwy]
              · rw [if_neg hwy] at h'
                cases h'
    · rw [if_neg hcond]

/-- Appending the injected limit text to a text with no match yields a
scan that finds exactly the injected clause. -/
theorem findFirstLimit_append :
    ∀ (l : List Char) (pw : Bool), findFirstLimit pw l = none →
      findFirstLimit pw (l ++ (' ' :: limitRepl)) = some (l ++ [' '], MAX_ROWS, []) := by
  intro l
  induction l with
  | nil =>
    intro pw _
    cases pw <;> decide
  | cons c rest ih =>
    intro pw h
    obtain ⟨hd, hrest⟩ := ffl_none_inv h
    have hres := ih (isWordChar c) hrest
    have he : (c :: rest) ++ (' ' :: limitRepl) = c :: (rest ++ (' ' :: limitRepl)) := by simp
    rw [he]
    rcases hd with hpw | hm
    · subst hpw
      rw [ffl_cons_true, hres]
      simp
    · have hm2 : matchLimitAt (c :: (rest ++ (' ' :: limitRepl))) = none := by
        have h0 := matchLimitAt_append_repl hm
        rwa [he] at h0
      rw [ffl_cons_nomatch pw hm2, hres]
      simp

/-- Appending the injected limit text to a text with no match: the
whole text has exactly one match, of value 200. -/
theorem limitMatchesAux_append (l : List Char) (pw : Bool)
    (h : findFirstLimit pw l = none) :
    limitMatchesAux pw (l ++ (' ' :: limitRepl)) = [MAX_ROWS] := by
  rw [limitMatchesAux_eq pw (l ++ (' ' :: limitRepl)), findFirstLimit_append l pw h]
  rfl

/-! ## Upper-casing and token-scan helpers -/

/-- `str.upper` on an ASCII lower-case letter shifts it down by 32. -/
theorem pyUpper_toNat {c : Char} (h1 : 97 ≤ c.toNat) (h2 : c.toNat ≤ 122) :
    (pyUpper c).toNat = c.toNat - 32 := by
  unfold pyUpper
  rw [if_pos (by simp only [Bool.and_eq_true, decide_eq_true_eq]; omega)]
  have hv : (c.toNat - 32).isValidChar := Or.inl (by omega)
  unfold Char.ofNat
  rw [dif_pos hv]
  rfl

/-- Upper-casing never changes whether a character is a word character
(`IGNORECASE` on `\w` and on the pattern word). -/
theorem isWordChar_pyUpper (c : Char) : isWordChar (pyUpper c) = isWordChar c := by
  by_cases hl : 97 ≤ c.toNat ∧ c.toNat ≤ 122
  · have ht := pyUpper_toNat hl.1 hl.2
    have h1 : isWordChar c = true := by
      unfold isWordChar
      simp only [Bool.or_eq_true, Bool.and_eq_true, decide_eq_true_eq]
      omega
    have h2 : isWordChar (pyUpper c) = true := by
      unfold isWordChar
      rw [ht]
      simp only [Bool.or_eq_true, Bool.and_eq_true, decide_eq_true_eq]
      omega
    rw [h1, h2]
  · have he : pyUpper c = c := by
      unfold pyUpper
      rw [if_neg (by simp only [Bool.and_eq_true, decide_eq_true_eq]; exact hl)]
    rw [he]

/-- The replacement text is already upper-case. -/
theorem map_pyUpper_limitRepl : limitRepl.map pyUpper = "LIMIT 200".toList := by decide

/-- `tokens` of the empty text. -/
theorem tokens_nil : tokens [] = [] := rfl

/-- A non-word character splits the token scan: the tokens of
`u ++ x :: v` are those of `u` followed by those of `v`. -/
theorem tokens_append_break (u : List Char) (x : Char) (v : List Char)
    (hx : isWordChar x = false) :
    tokens (u ++ x :: v) = tokens u ++ tokens v := by
  rcases u with _ | ⟨c, u'⟩
  · rw [List.nil_append, tokens_cons, if_neg (by simp [hx]), tokens_nil, List.nil_append]
  · rw [List.cons_append, tokens_cons, tokens_cons c u']
    by_cases hw : isWordChar c
    · rw [if_pos hw, if_pos hw]
      by_cases hall : u'.all isWordChar
      · rw [takeWhile_append_pos isWordChar u' _ hall,
          dropWhile_append_pos isWordChar u' _ hall]
        rw [show (x :: v).takeWhile isWordChar = [] from by simp [List.takeWhile, hx],
          show (x :: v).dropWhile isWordChar = x :: v from by simp [List.dropWhile, hx]]
        rw [tokens_cons, if_neg (by simp [hx])]
        rw [takeWhile_all_self isWordChar u' hall, dropWhile_all_nil isWordChar u' hall,
          tokens_nil]
        simp
      · have hallf : u'.all isWordChar = false := by simpa using hall
        rw [takeWhile_append_neg isWordChar u' _ hallf,
          dropWhile_append_neg isWordChar u' _ hallf]
        have hdl : (u'.dropWhile isWordChar).length < u'.length + 1 := by
          have := dropWhile_length_le isWordChar u'
          omega
        rw [tokens_append_break (u'.dropWhile isWordChar) x v hx]
        simp
    · rw [if_neg hw, if_neg hw]
      exact tokens_append_break u' x v hx
termination_by u.length
decreasing_by
  all_goals simp only [List.length_cons]
  all_goals omega

/-- Tokens of `u ++ m` when `u` is empty or ends in a non-word
character: the scan splits at the boundary. -/
theorem tokens_append_sep {u : List Char} (m : List Char)
    (hu : ∀ u₀ y, u = u₀ ++ [y] → isWordChar y = false) :
    tokens (u ++ m) = tokens u ++ tokens m := by
  rcases List.eq_nil_or_concat' u with rfl | ⟨u₀, y, rfl⟩
  · rw [List.nil_append, tokens_nil, List.nil_append]
  · have hy := hu u₀ y rfl
    have h1 : u₀ ++ [y] ++ m = u₀ ++ y :: m := by simp
    rw [h1, tokens_append_break u₀ y m hy]
    have h2 : tokens (u₀ ++ [y]) = tokens u₀ := by
      have h3 := tokens_append_break u₀ y [] hy
      simpa [tokens_nil] using h3
    rw [h2]

/-! ## `validate` unfolding -/

/-- `validate` on the empty input. -/
theorem validate_empty : validate [] = { is_valid := false, error := some "Empty SQL" } := rfl

/-- Unfolding of `validate` past the emptiness check. -/
theorem validate_unfold (sql : List Char) (h0 : ¬ sql = []) :
    validate sql =
      (if ((cleanSql sql).map pyUpper).take 6 = "SELECT".toList then
        match firstForbidden (tokens ((cleanSql sql).map pyUpper)) with
        | some t =>
          { is_valid := false, error := some ("Forbidden keyword: " ++ String.mk t) }
        | none =>
          match findFirstLimit false (cleanSql sql) with
          | some (_, v, _) =>
            if MAX_ROWS < v then
              { is_valid := true, sanitized_sql := some (subLimits (cleanSql sql)) }
            else { is_valid := true, sanitized_sql := some (cleanSql sql) }
          | none =>
            { is_valid := true, sanitized_sql := some (cleanSql sql ++ ' ' :: limitRepl) }
      else { is_valid := false, error := some "Only SELECT queries are allowed" }) := by
  unfold validate
  rw [if_neg h0]

/-- The three checks read only the cleaned text: two nonempty inputs
with the same cleaned text validate identically. -/
theorem validate_congr_clean {s t : List Char} (hs : s ≠ []) (ht : t ≠ [])
    (h : cleanSql s = cleanSql t) : validate s = validate t := by
  rw [validate_unfold s hs, validate_unfold t ht, h]

/-- `validate` on a non-SELECT cleaned text. -/
theorem validate_not_select (sql : List Char) (h0 : ¬ sql = [])
    (h6 : ¬ ((cleanSql sql).map pyUpper).take 6 = "SELECT".toList) :
    validate sql =
      { is_valid := false, error := some "Only SELECT queries are allowed" } := by
  rw [validate_unfold sql h0, if_neg h6]

/-- `validate` when the blocklist scan hits. -/
theorem validate_forbidden (sql : List Char) (h0 : ¬ sql = [])
    (h6 : ((cleanSql sql).map pyUpper).take 6 = "SELECT".toList) {t : List Char}
    (hf : firstForbidden (tokens ((cleanSql sql).map pyUpper)) = some t) :
    validate sql =
      { is_valid := false, error := some ("Forbidden keyword: " ++ String.mk t) } := by
  rw [validate_unfold sql h0, if_pos h6, hf]

/-- `validate` when no `LIMIT` clause is found: the ceiling is appended. -/
theorem validate_limit_none (sql : List Char) (h0 : ¬ sql = [])
    (h6 : ((cleanSql sql).map pyUpper).take 6 = "SELECT".toList)
    (hf : firstForbidden (tokens ((cleanSql sql).map pyUpper)) = none)
    (hl : findFirstLimit false (cleanSql sql) = none) :
    validate sql =
      { is_valid := true, sanitized_sql := some (cleanSql sql ++ ' ' :: limitRepl) } := by
  rw [validate_unfold sql h0, if_pos h6, hf, hl]

/-- `validate` when a `LIMIT` clause above the ceiling is found: every
clause is rewritten. -/
theorem validate_limit_big (sql : List Char) (h0 : ¬ sql = [])
    (h6 : ((cleanSql sql).map pyUpper).take 6 = "SELECT".toList)
    (hf : firstForbidden (tokens ((cleanSql sql).map pyUpper)) = none)
    {pre : List Char} {v : Nat} {post : List Char}
    (hl : findFirstLimit false (cleanSql sql) = some (pre, v, post))
    (hv : MAX_ROWS < v) :
    validate sql = { is_valid := true, sanitized_sql := some (subLimits (cleanSql sql)) } := by
  rw [validate_unfold sql h0, if_pos h6, hf, hl]
  show (if MAX_ROWS < v then
      ({ is_valid := true, sanitized_sql := some (subLimits (cleanSql sql)) } : ValidationResult)
    else { is_valid := true, sanitized_sql := some (cleanSql sql) }) = _
  rw [if_pos hv]

/-- `validate` when a `LIMIT` clause within the ceiling is found: the
text is kept unchanged. -/
theorem validate_limit_small (sql : List Char) (h0 : ¬ sql = [])
    (h6 : ((cleanSql sql).map pyUpper).take 6 = "SELECT".toList)
    (hf : firstForbidden (tokens ((cleanSql sql).map pyUpper)) = none)
    {pre : List Char} {v : Nat} {post : List Char}
    (hl : findFirstLimit false (cleanSql sql) = some (pre, v, post))
    (hv : ¬ MAX_ROWS < v) :
    validate sql = { is_valid := true, sanitized_sql := some (cleanSql sql) } := by
  rw [validate_unfold sql h0, if_pos h6, hf, hl]
  show (if MAX_ROWS < v then
      ({ is_valid := true, sanitized_sql := some (subLimits (cleanSql sql)) } : ValidationResult)
    else { is_valid := true, sanitized_sql := some (cleanSql sql) }) = _
  rw [if_neg hv]

/-- Every Invalid verdict carries an error text. -/
theorem validate_invalid_error {sql : List Char}
    (h : (validate sql).is_valid = false) : (validate sql).error.isSome = true := by
  by_cases h0 : sql = []
  · subst h0
    rw [validate_empty]
    rfl
  · by_cases h6 : ((cleanSql sql).map pyUpper).take 6 = "SELECT".toList
    · rcases hf : firstForbidden (tokens ((cleanSql sql).map pyUpper)) with _ | t
      · rcases hl : findFirstLimit false (cleanSql sql) with _ | ⟨⟨pre, v, post⟩⟩
        · rw [validate_limit_none sql h0 h6 hf hl] at h
          cases h
        · by_cases hv : MAX_ROWS < v
          · rw [validate_limit_big sql h0 h6 hf hl hv] at h
            cases h
          · rw [validate_limit_small sql h0 h6 hf hl hv] at h
            cases h
      · rw [validate_forbidden sql h0 h6 hf]
        rfl
    · rw [validate_not_select sql h0 h6]
      rfl

/-- Inversion of a Valid verdict: the input is nonempty, the cleaned
text passes the SELECT and blocklist checks, the error is empty, and the
sanitized text is the output of the branch the LIMIT scan selected. -/
theorem validate_valid_inv {sql : List Char} (h : (validate sql).is_valid = true) :
    ¬ sql = [] ∧
    ((cleanSql sql).map pyUpper).take 6 = "SELECT".toList ∧
    firstForbidden (tokens ((cleanSql sql).map pyUpper)) = none ∧
    (validate sql).error = none ∧
    ((∃ pre v post, findFirstLimit false (cleanSql sql) = some (pre, v, post) ∧
        ((MAX_ROWS < v ∧
            (validate sql).sanitized_sql = some (subLimits (cleanSql sql))) ∨
         (v ≤ MAX_ROWS ∧ (validate sql).sanitized_sql = some (cleanSql sql)))) ∨
     (findFirstLimit false (cleanSql sql) = none ∧
        (validate sql).sanitized_sql = some (cleanSql sql ++ ' ' :: limitRepl))) := by
  by_cases h0 : sql = []
  · subst h0
    rw [validate_empty] at h
    cases h
  · by_cases h6 : ((cleanSql sql).map pyUpper).take 6 = "SELECT".toList
    · rcases hf : firstForbidden (tokens ((cleanSql sql).map pyUpper)) with _ | t
      · rcases hl : findFirstLimit false (cleanSql sql) with _ | ⟨⟨pre, v, post⟩⟩
        · rw [validate_limit_none sql h0 h6 hf hl]
          exact ⟨h0, h6, rfl, rfl, Or.inr ⟨rfl, rfl⟩⟩
        · by_cases hv : MAX_ROWS < v
          · rw [validate_limit_big sql h0 h6 hf hl hv]
            exact ⟨h0, h6, rfl, rfl, Or.inl ⟨pre, v, post, rfl, Or.inl ⟨hv, rfl⟩⟩⟩
          · rw [validate_limit_small sql h0 h6 hf hl hv]
            exact ⟨h0, h6, rfl, rfl, Or.inl ⟨pre, v, post, rfl, Or.inr ⟨by omega, rfl⟩⟩⟩
      · rw [validate_forbidden sql h0 h6 hf] at h
        cases h
    · rw [validate_not_select sql h0 h6] at h
      cases h

/-! ## `rstrip` characterization -/

/-- A list splits into its right-stripped part and the stripped run. -/
theorem rstripBy_decomp (p : Char → Bool) (l : List Char) :
    l = rstripBy p l ++ (l.reverse.takeWhile p).reverse := by
  unfold rstripBy
  rw [← List.reverse_append, List.takeWhile_append_dropWhile, List.reverse_reverse]

/-- A list of semicolons is a `replicate`. -/
theorem all_semi_replicate (l : List Char) (h : l.all (fun c => c == ';') = true) :
    l = List.replicate l.length ';' := by
  induction l with
  | nil => rfl
  | cons a l ih =>
    simp only [List.all_cons, Bool.and_eq_true, beq_iff_eq] at h
    obtain ⟨h1, h2⟩ := h
    subst h1
    rw [List.length_cons, List.replicate_succ, ← ih h2]

/-- The head of `dropWhile` fails the test. -/
theorem dropWhile_head_false (p : α → Bool) (l : List α) (c : α)
    (h : (l.dropWhile p).head? = some c) : p c = false := by
  induction l with
  | nil => cases h
  | cons a l ih =>
    by_cases ha : p a
    · rw [show (a :: l).dropWhile p = l.dropWhile p from by simp [List.dropWhile, ha]] at h
      exact ih h
    · rw [show (a :: l).dropWhile p = a :: l from by
        simp [List.dropWhile, ha]] at h
      simp only [List.head?_cons, Option.some.injEq] at h
      rw [← h]
      simpa using ha

/-- The last character surviving `rstrip` fails the test. -/
theorem rstripBy_getLast (p : Char → Bool) (l : List Char) {c : Char}
    (h : (rstripBy p l).getLast? = some c) : p c = false := by
  unfold rstripBy at h
  rw [List.getLast?_reverse] at h
  exact dropWhile_head_false p l.reverse c h

/-- `rstrip(';')` removes a (possibly empty) run of trailing semicolons
— all of them. -/
theorem rstripSemi_decomp (l : List Char) :
    ∃ k, l = rstripSemi l ++ List.replicate k ';' := by
  refine ⟨(l.reverse.takeWhile (fun c => c == ';')).reverse.length, ?_⟩
  have h1 := rstripBy_decomp (fun c => c == ';') l
  have h2 : (l.reverse.takeWhile (fun c => c == ';')).reverse
      = List.replicate (l.reverse.takeWhile (fun c => c == ';')).reverse.length ';' := by
    apply all_semi_replicate
    have h3 : (l.reverse.takeWhile (fun c => c == ';')).all (fun c => c == ';') = true :=
      List.all_takeWhile
    simpa using h3
  rw [← h2]
  exact h1

/-- No trailing semicolon survives `rstrip(';')`. -/
theorem rstripSemi_getLast (l : List Char) {c : Char}
    (h : (rstripSemi l).getLast? = some c) : c ≠ ';' := by
  have h1 := rstripBy_getLast (fun c => c == ';') l h
  simpa using h1

/-! ## The scan never fires inside the leading `SELECT` -/

/-- A failed word comparison refutes the attempt. -/
theorem matchLimitAt_none_of_take5 {l : List Char}
    (h : ¬ (l.take 5).map pyUpper = "LIMIT".toList) : matchLimitAt l = none := by
  unfold matchLimitAt
  rw [if_neg h]

/-- A text whose upper-cased image starts with `SELECT` has six explicit
head characters. -/
theorem select6_shape {l : List Char} (h : (l.map pyUpper).take 6 = "SELECT".toList) :
    ∃ c1 c2 c3 c4 c5 c6 r, l = c1 :: c2 :: c3 :: c4 :: c5 :: c6 :: r ∧
      pyUpper c1 = 'S' ∧ pyUpper c2 = 'E' ∧ pyUpper c3 = 'L' ∧
      pyUpper c4 = 'E' ∧ pyUpper c5 = 'C' ∧ pyUpper c6 = 'T' := by
  have hlen : 6 ≤ l.length := by
    have hlen1 := congrArg List.length h
    rw [List.length_take, List.length_map] at hlen1
    rw [show ("SELECT".toList).length = 6 from rfl] at hlen1
    omega
  rcases l with _ | ⟨c1, _ | ⟨c2, _ | ⟨c3, _ | ⟨c4, _ | ⟨c5, _ | ⟨c6, r⟩⟩⟩⟩⟩⟩
  · simp at hlen
  · simp at hlen
  · simp at hlen
  · simp at hlen
  · simp at hlen
  · simp at hlen
  · rw [show ((c1 :: c2 :: c3 :: c4 :: c5 :: c6 :: r).map pyUpper).take 6
        = [pyUpper c1, pyUpper c2, pyUpper c3, pyUpper c4, pyUpper c5, pyUpper c6] from rfl,
      show "SELECT".toList = ['S', 'E', 'L', 'E', 'C', 'T'] from rfl] at h
    simp only [List.cons.injEq, and_true] at h
    exact ⟨c1, c2, c3, c4, c5, c6, r, rfl, h.1, h.2.1, h.2.2.1, h.2.2.2.1,
      h.2.2.2.2.1, h.2.2.2.2.2⟩

/-- One step of the scan past a position with no match: the head moves
into the unmatched portion. -/
theorem ffl_step_len {pw : Bool} {c : Char} {rest pre : List Char} {v : Nat}
    {post : List Char} (hm : matchLimitAt (c :: rest) = none)
    (h : findFirstLimit pw (c :: rest) = some (pre, v, post)) :
    ∃ pre', findFirstLimit (isWordChar c) rest = some (pre', v, post) ∧
      pre = c :: pre' := by
  rw [ffl_cons_nomatch pw hm] at h
  rcases hf : findFirstLimit (isWordChar c) rest with _ | ⟨⟨p, w, q⟩⟩
  · rw [hf] at h
    cases h
  · rw [hf] at h
    have h' : some (c :: p, w, q) = some (pre, v, post) := h
    simp only [Option.some.injEq, Prod.mk.injEq] at h'
    exact ⟨p, by rw [← h'.2.1, ← h'.2.2], h'.1.symm⟩

/-- On a text whose upper-cased image starts with `SELECT`, the first
`LIMIT` match begins past those six characters: the word comparison
fails at each of the six head positions. -/
theorem findFirstLimit_select_pre {l pre : List Char} {v : Nat} {post : List Char}
    (h6 : (l.map pyUpper).take 6 = "SELECT".toList)
    (h : findFirstLimit false l = some (pre, v, post)) : 6 ≤ pre.length := by
  obtain ⟨c1, c2, c3, c4, c5, c6, r, rfl, hU1, hU2, hU3, hU4, hU5, hU6⟩ := select6_shape h6
  have hm0 : matchLimitAt (c1 :: c2 :: c3 :: c4 :: c5 :: c6 :: r) = none := by
    apply matchLimitAt_none_of_take5
    rw [take5_cons]
    simp only [List.map_cons, List.map_nil, hU1, hU2, hU3, hU4, hU5]
    decide
  obtain ⟨p1, h1, hpre1⟩ := ffl_step_len hm0 h
  have hm1 : matchLimitAt (c2 :: c3 :: c4 :: c5 :: c6 :: r) = none := by
    apply matchLimitAt_none_of_take5
    rw [take5_cons]
    simp only [List.map_cons, List.map_nil, hU2, hU3, hU4, hU5, hU6]
    decide
  obtain ⟨p2, h2, hpre2⟩ := ffl_step_len hm1 h1
  have hm2 : matchLimitAt (c3 :: c4 :: c5 :: c6 :: r) = none := by
    apply matchLimitAt_none_of_take5
    intro hcon
    rw [show (c3 :: c4 :: c5 :: c6 :: r).take 5 = c3 :: c4 :: c5 :: c6 :: r.take 1 from rfl,
      show "LIMIT".toList = 'L' :: 'I' :: 'M' :: 'I' :: 'T' :: [] from rfl] at hcon
    simp only [List.map_cons, hU3, hU4, hU5, hU6, List.cons.injEq] at hcon
    exact absurd hcon.2.1 (by decide)
  obtain ⟨p3, h3, hpre3⟩ := ffl_step_len hm2 h2
  have hm3 : matchLimitAt (c4 :: c5 :: c6 :: r) = none := by
    apply matchLimitAt_none_of_take5
    intro hcon
    rw [show (c4 :: c5 :: c6 :: r).take 5 = c4 :: c5 :: c6 :: r.take 2 from rfl,
      show "LIMIT".toList = 'L' :: 'I' :: 'M' :: 'I' :: 'T' :: [] from rfl] at hcon
    simp only [List.map_cons, hU4, hU5, hU6, List.cons.injEq] at hcon
    exact absurd hcon.1 (by decide)
  obtain ⟨p4, h4, hpre4⟩ := ffl_step_len hm3 h3
  have hm4 : matchLimitAt (c5 :: c6 :: r) = none := by
    apply matchLimitAt_none_of_take5
    intro hcon
    rw [show (c5 :: c6 :: r).take 5 = c5 :: c6 :: r.take 3 from rfl,
      show "LIMIT".toList = 'L' :: 'I' :: 'M' :: 'I' :: 'T' :: [] from rfl] at hcon
    simp only [List.map_cons, hU5, hU6, List.cons.injEq] at hcon
    exact absurd hcon.1 (by decide)
  obtain ⟨p5, h5, hpre5⟩ := ffl_step_len hm4 h4
  have hm5 : matchLimitAt (c6 :: r) = none := by
    apply matchLimitAt_none_of_take5
    intro hcon
    rw [show (c6 :: r).take 5 = c6 :: r.take 4 from rfl,
      show "LIMIT".toList = 'L' :: 'I' :: 'M' :: 'I' :: 'T' :: [] from rfl] at hcon
    simp only [List.map_cons, hU6, List.cons.injEq] at hcon
    exact absurd hcon.1 (by decide)
  obtain ⟨p6, h6', hpre6⟩ := ffl_step_len hm5 h5
  rw [hpre1, hpre2, hpre3, hpre4, hpre5, hpre6]
  simp only [List.length_cons]
  omega

/-- Taking the leading six characters ignores an appended tail when the
first part is long enough. -/
theorem take6_map_append {a : List Char} (b : List Char) (h : 6 ≤ a.length) :
    ((a ++ b).map pyUpper).take 6 = (a.map pyUpper).take 6 := by
  rw [List.map_append, List.take_append_of_le_length (by simpa using h)]

/-! ## Tokens of the substituted text -/

/-- The blocklist scan finds nothing exactly when no token is
blocklisted. -/
theorem firstForbidden_none_iff {toks : List (List Char)} :
    firstForbidden toks = none ↔ ∀ t ∈ toks, ¬ t ∈ DANGEROUS_KEYWORDS := by
  unfold firstForbidden
  rw [List.find?_eq_none]
  constructor
  · intro hh t ht
    have h1 := hh t ht
    simpa using h1
  · intro hh t ht
    have h1 := hh t ht
    simpa using h1

/-- The word-boundary condition at the end of a prefix survives
upper-casing. -/
theorem map_last_nonword {pre : List Char}
    (hlast : ∀ pre₀ y, pre = pre₀ ++ [y] → isWordChar y = false) :
    ∀ u₀ y, pre.map pyUpper = u₀ ++ [y] → isWordChar y = false := by
  intro u₀ y hy
  rcases List.eq_nil_or_concat' pre with rfl | ⟨pre₀, x, rfl⟩
  · simp at hy
  · rw [List.map_append] at hy
    simp only [List.map_cons, List.map_nil] at hy
    have h1 := congrArg List.getLast? hy
    rw [List.getLast?_concat, List.getLast?_concat] at h1
    simp only [Option.some.injEq] at h1
    rw [← h1, isWordChar_pyUpper]
    exact hlast pre₀ x rfl

/-- Every token of the upper-cased substituted text is a token of the
upper-cased original, or one of the two replacement words. -/
theorem tokens_upper_sub (l : List Char) (pw : Bool) :
    ∀ t ∈ tokens ((subLimitsAux pw l).map pyUpper),
      t ∈ tokens (l.map pyUpper) ∨ t = "LIMIT".toList ∨ t = "200".toList := by
  intro t ht
  rcases hffl : findFirstLimit pw l with _ | ⟨⟨pre, v, post⟩⟩
  · have he : subLimitsAux pw l = l := by
      rw [subLimitsAux_eq, hffl]
    rw [he] at ht
    exact Or.inl ht
  · have he : subLimitsAux pw l = pre ++ limitRepl ++ subLimitsAux true post := by
      rw [subLimitsAux_eq, hffl]
    obtain ⟨lm5, ws, ds, hsplit, hlm, hws, hwsall, hds, hdsall, hveq, hshape, hfirst,
      hlast⟩ := findFirstLimit_decomp l pw pre v post hffl
    have hpreU := map_last_nonword hlast
    rw [he] at ht
    have hmap : (pre ++ limitRepl ++ subLimitsAux true post).map pyUpper
        = pre.map pyUpper ++ ("LIMIT 200".toList ++ (subLimitsAux true post).map pyUpper) := by
      simp only [List.map_append, map_pyUpper_limitRepl, List.append_assoc]
    rw [hmap, tokens_append_sep ("LIMIT 200".toList ++
      (subLimitsAux true post).map pyUpper) hpreU, List.mem_append] at ht
    have hlsplit : l.map pyUpper
        = pre.map pyUpper ++ ((lm5 ++ (ws ++ (ds ++ post))).map pyUpper) := by
      rw [hsplit, List.map_append]
    rcases ht with ht | ht
    · left
      rw [hlsplit, tokens_append_sep ((lm5 ++ (ws ++ (ds ++ post))).map pyUpper) hpreU,
        List.mem_append]
      exact Or.inl ht
    · have hsub : subLimitsAux true post = [] ∨
          ∃ x xs, subLimitsAux true post = x :: xs ∧ isWordChar x = false := by
        rcases hshape with rfl | ⟨x, xs, rfl, hx⟩
        · exact Or.inl (subLimitsAux_nil true)
        · rw [subLimitsAux_cons_skip (Or.inl rfl)]
          exact Or.inr ⟨x, _, rfl, hx⟩
      have htoks : tokens ("LIMIT 200".toList ++ (subLimitsAux true post).map pyUpper)
          = "LIMIT".toList :: "200".toList ::
              tokens ((subLimitsAux true post).map pyUpper) := by
        rcases hsub with hnil | ⟨x, xs, hx, hxw⟩
        · rw [hnil]
          decide
        · rw [hx, show (x :: xs).map pyUpper = pyUpper x :: xs.map pyUpper from rfl,
            tokens_append_break "LIMIT 200".toList (pyUpper x) (xs.map pyUpper)
              (by rw [isWordChar_pyUpper]; exact hxw),
            show tokens ("LIMIT 200".toList) = ["LIMIT".toList, "200".toList] from by decide,
            tokens_cons, if_neg (by rw [isWordChar_pyUpper]; simp [hxw])]
          rfl
      rw [htoks] at ht
      simp only [List.mem_cons] at ht
      rcases ht with rfl | rfl | ht
      · exact Or.inr (Or.inl rfl)
      · exact Or.inr (Or.inr rfl)
      · have hrec := tokens_upper_sub post true t ht
        rcases hrec with hrec | hrec | hrec
        · left
          rw [hlsplit, tokens_append_sep ((lm5 ++ (ws ++ (ds ++ post))).map pyUpper) hpreU,
            List.mem_append]
          right
          rcases hshape with rfl | ⟨x, xs, rfl, hxw⟩
          · simp only [List.map_nil, tokens_nil] at hrec
            cases hrec
          · have hsplit2 : (lm5 ++ (ws ++ (ds ++ x :: xs))).map pyUpper
                = (lm5 ++ (ws ++ ds)).map pyUpper ++ (pyUpper x :: xs.map pyUpper) := by
              simp
            rw [hsplit2, tokens_append_break ((lm5 ++ (ws ++ ds)).map pyUpper) (pyUpper x)
              (xs.map pyUpper) (by rw [isWordChar_pyUpper]; exact hxw), List.mem_append]
            right
            rwa [show (x :: xs).map pyUpper = pyUpper x :: xs.map pyUpper from rfl,
              tokens_cons, if_neg (by rw [isWordChar_pyUpper]; simp [hxw])] at hrec
        · exact Or.inr (Or.inl hrec)
        · exact Or.inr (Or.inr hrec)
termination_by l.length
decreasing_by
  exact findFirstLimit_post_length _ _ _ _ _ hffl

/-- Forward evaluation of `validate` on a text that is already clean,
passes both checks, and carries a first `LIMIT` match within the
ceiling: the verdict is Valid and the text is returned unchanged. -/
theorem validate_of_checks {s : List Char} (h0 : ¬ s = []) (hc : cleanSql s = s)
    (h6 : (s.map pyUpper).take 6 = "SELECT".toList)
    (hf : firstForbidden (tokens (s.map pyUpper)) = none)
    {pre : List Char} {v : Nat} {post : List Char}
    (hl : findFirstLimit false s = some (pre, v, post)) (hv : v ≤ MAX_ROWS) :
    validate s = { is_valid := true, error := none, sanitized_sql := some s } := by
  have h := validate_limit_small s h0 (by rw [hc]; exact h6) (by rw [hc]; exact hf)
    (by rw [hc]; exact hl) (by omega)
  rw [h, hc]

/-! ## Orchestrator-loop lemmas -/

/-- A tool call whose name is not `execute_sql` is skipped entirely. -/
theorem processToolCall_other (env : AgentEnv) (question : String) (session : Bool)
    (tc : ToolCall) (h : ¬ tc.name = "execute_sql") :
    processToolCall env question session tc =
      { msgs := [], audits := [], events := [], sql_used := none, row_count := none,
        invocations := 0 } := by
  unfold processToolCall
  rw [if_neg h]

/-- One invocation, validation failure, with a session attached: one
audit row holding the raw SQL and the validation error. -/
theorem processToolCall_invalid (env : AgentEnv) (question : String) (tc : ToolCall)
    (h : tc.name = "execute_sql") (hval : (validate tc.sqlArg).is_valid = false) :
    processToolCall env question true tc =
      { msgs := [.tool tc.id ("Validation error: " ++ ((validate tc.sqlArg).error.getD "")
          ++ ". Please fix the SQL.")],
        audits := [{ user_question := question, generated_sql := tc.sqlArg,
                     error := (validate tc.sqlArg).error }],
        events := [.sql tc.sqlArg, .status "Fetching data..."],
        sql_used := some tc.sqlArg, row_count := none, invocations := 1 } := by
  simp only [processToolCall]
  rw [if_pos h, hval, if_neg (by simp)]
  simp

/-- One invocation, successful execution, with a session attached: one
audit row holding the sanitized SQL, the row count and the latency. -/
theorem processToolCall_success (env : AgentEnv) (question : String) (tc : ToolCall)
    (h : tc.name = "execute_sql") (hval : (validate tc.sqlArg).is_valid = true)
    (hres : (executeQuery ((validate tc.sqlArg).sanitized_sql.getD []) env.db
      env.elapsedOk env.elapsedErr).success = true) :
    processToolCall env question true tc =
      { msgs := [.tool tc.id (dumpRows (executeQuery
          ((validate tc.sqlArg).sanitized_sql.getD [])
          env.db env.elapsedOk env.elapsedErr).rows)],
        audits := [{ user_question := question,
                     generated_sql := (validate tc.sqlArg).sanitized_sql.getD [],
                     row_count := some (executeQuery
                       ((validate tc.sqlArg).sanitized_sql.getD [])
                       env.db env.elapsedOk env.elapsedErr).row_count,
                     execution_time_ms := some (executeQuery
                       ((validate tc.sqlArg).sanitized_sql.getD [])
                       env.db env.elapsedOk env.elapsedErr).execution_time_ms }],
        events := [.sql tc.sqlArg, .status "Fetching data..."],
        sql_used := some tc.sqlArg,
        row_count := some (executeQuery ((validate tc.sqlArg).sanitized_sql.getD [])
          env.db env.elapsedOk env.elapsedErr).row_count,
        invocations := 1 } := by
  simp only [processToolCall]
  rw [if_pos h, hval, if_pos rfl, hres, if_pos rfl]
  simp

/-- One invocation, execution failure, with a session attached: one
audit row holding the sanitized SQL and the execution error. -/
theorem processToolCall_execfail (env : AgentEnv) (question : String) (tc : ToolCall)
    (h : tc.name = "execute_sql") (hval : (validate tc.sqlArg).is_valid = true)
    (hres : (executeQuery ((validate tc.sqlArg).sanitized_sql.getD []) env.db
      env.elapsedOk env.elapsedErr).success = false) :
    processToolCall env question true tc =
      { msgs := [.tool tc.id ("Query execution error: " ++
          ((executeQuery ((validate tc.sqlArg).sanitized_sql.getD []) env.db
            env.elapsedOk env.elapsedErr).error.getD "") ++ ". Please fix the SQL.")],
        audits := [{ user_question := question,
                     generated_sql := (validate tc.sqlArg).sanitized_sql.getD [],
                     error := (executeQuery ((validate tc.sqlArg).sanitized_sql.getD [])
                       env.db env.elapsedOk env.elapsedErr).error }],
        events := [.sql tc.sqlArg, .status "Fetching data..."],
        sql_used := some tc.sqlArg, row_count := none, invocations := 1 } := by
  simp only [processToolCall]
  rw [if_pos h, hval, if_pos rfl, hres, if_neg (by simp)]
  simp

/-- With a session attached, one step creates as many audit rows as it
counts invocations (one for `execute_sql`, none otherwise). -/
theorem processToolCall_audits_inv (env : AgentEnv) (question : String) (tc : ToolCall) :
    (processToolCall env question true tc).audits.length =
      (processToolCall env question true tc).invocations := by
  by_cases h : tc.name = "execute_sql"
  · by_cases hval : (validate tc.sqlArg).is_valid
    · by_cases hres : (executeQuery ((validate tc.sqlArg).sanitized_sql.getD []) env.db
        env.elapsedOk env.elapsedErr).success
      · rw [processToolCall_success env question tc h hval hres]
        rfl
      · rw [processToolCall_execfail env question tc h hval (by simpa using hres)]
        rfl
    · rw [processToolCall_invalid env question tc h (by simpa using hval)]
      rfl
  · rw [processToolCall_other env question true tc h]
    rfl

/-- The tool-call fold never touches the request counter. -/
theorem foldToolCalls_requests (env : AgentEnv) (question : String) (session : Bool) :
    ∀ (tcs : List ToolCall) (st : LoopState),
      (foldToolCalls env question session tcs st).llm_requests = st.llm_requests := by
  intro tcs
  induction tcs with
  | nil => intro st; rfl
  | cons tc rest ih =>
    intro st
    simp only [foldToolCalls]
    rw [ih]

/-- With a session attached, the fold preserves the audit-per-invocation
balance. -/
theorem foldToolCalls_audits_inv (env : AgentEnv) (question : String) :
    ∀ (tcs : List ToolCall) (st : LoopState),
      st.audits.length = st.invocations →
      (foldToolCalls env question true tcs st).audits.length =
        (foldToolCalls env question true tcs st).invocations := by
  intro tcs
  induction tcs with
  | nil => intro st h; exact h
  | cons tc rest ih =>
    intro st h
    simp only [foldToolCalls]
    apply ih
    show (st.audits ++ (processToolCall env question true tc).audits).length
        = st.invocations + (processToolCall env question true tc).invocations
    rw [List.length_append, h, processToolCall_audits_inv env question tc]

/-! ## Step equations of the synchronous loop -/

/-- Exhausted fuel: the fallback failure. -/
theorem runAux_zero (env : AgentEnv) (question : String) (session : Bool)
    (st : LoopState) :
    runAux env question session 0 st =
      { result := { success := false, response := runFallbackText,
                    error := some "Max iterations reached or unexpected finish reason" },
        audits := st.audits,
        chat_rows := if session then [⟨.assistant, runFallbackText, .failed⟩] else [],
        llm_requests := st.llm_requests, invocations := st.invocations } := rfl

/-- A transport exception from the model call. -/
theorem runAux_step_exn (env : AgentEnv) (question : String) (session : Bool)
    (fuel : Nat) (st : LoopState) (m : String)
    (hllm : env.llm (st.llm_requests == 0) st.messages = .exn m) :
    runAux env question session (fuel + 1) st =
      { result := { success := false, response := "Service error: " ++ m,
                    error := some m },
        audits := st.audits,
        chat_rows := if session then [⟨.assistant, "Service error: " ++ m, .failed⟩]
          else [],
        llm_requests := st.llm_requests + 1, invocations := st.invocations } := by
  simp only [runAux, hllm]

/-- A tool-call round: fold the calls and loop. -/
theorem runAux_step_toolcalls (env : AgentEnv) (question : String) (session : Bool)
    (fuel : Nat) (st : LoopState) (choice : ChatChoice)
    (hllm : env.llm (st.llm_requests == 0) st.messages = .ok choice)
    (hfin : choice.finish_reason = .tool_calls) :
    runAux env question session (fuel + 1) st =
      runAux env question session fuel
        (foldToolCalls env question session choice.tool_calls
          { st with messages := st.messages ++ [.assistantChoice choice],
                    llm_requests := st.llm_requests + 1 }) := by
  simp only [runAux, hllm, hfin]

/-- A natural stop: the success result. -/
theorem runAux_step_stop (env : AgentEnv) (question : String) (session : Bool)
    (fuel : Nat) (st : LoopState) (choice : ChatChoice)
    (hllm : env.llm (st.llm_requests == 0) st.messages = .ok choice)
    (hfin : choice.finish_reason = .stop) :
    runAux env question session (fuel + 1) st =
      { result := { success := true, response := choice.content,
                    sql_used := st.sql_used, row_count := st.row_count },
        audits := st.audits,
        chat_rows := if session then [⟨.assistant, choice.content, .success⟩] else [],
        llm_requests := st.llm_requests + 1, invocations := st.invocations } := by
  simp only [runAux, hllm, hfin]

/-- An unexpected finish reason: the `break`, hence the fallback. -/
theorem runAux_step_other (env : AgentEnv) (question : String) (session : Bool)
    (fuel : Nat) (st : LoopState) (choice : ChatChoice)
    (hllm : env.llm (st.llm_requests == 0) st.messages = .ok choice)
    (hfin : choice.finish_reason = .other) :
    runAux env question session (fuel + 1) st =
      { result := { success := false, response := runFallbackText,
                    error := some "Max iterations reached or unexpected finish reason" },
        audits := st.audits,
        chat_rows := if session then [⟨.assistant, runFallbackText, .failed⟩] else [],
        llm_requests := st.llm_requests + 1, invocations := st.invocations } := by
  simp only [runAux, hllm, hfin]

/-- The synchronous loop issues at most `fuel` further model requests. -/
theorem runAux_requests_le (env : AgentEnv) (question : String) (session : Bool) :
    ∀ (fuel : Nat) (st : LoopState),
      (runAux env question session fuel st).llm_requests ≤ st.llm_requests + fuel := by
  intro fuel
  induction fuel with
  | zero => intro st; exact Nat.le_refl _
  | succ fuel ih =>
    intro st
    rcases hllm : env.llm (st.llm_requests == 0) st.messages with ⟨choice⟩ | m
    · rcases hfin : choice.finish_reason with _ | _ | _
      · rw [runAux_step_toolcalls env question session fuel st choice hllm hfin]
        have h1 := ih (foldToolCalls env question session choice.tool_calls
          { st with messages := st.messages ++ [.assistantChoice choice],
                    llm_requests := st.llm_requests + 1 })
        rw [foldToolCalls_requests] at h1
        have h2 : ({ st with
                       messages := st.messages ++ [.assistantChoice choice],
                       llm_requests := st.llm_requests + 1 } : LoopState).llm_requests
            = st.llm_requests + 1 := rfl
        rw [h2] at h1
        omega
      · rw [runAux_step_stop env question session fuel st choice hllm hfin]
        show st.llm_requests + 1 ≤ st.llm_requests + (fuel + 1)
        omega
      · rw [runAux_step_other env question session fuel st choice hllm hfin]
        show st.llm_requests + 1 ≤ st.llm_requests + (fuel + 1)
        omega
    · rw [runAux_step_exn env question session fuel st m hllm]
      show st.llm_requests + 1 ≤ st.llm_requests + (fuel + 1)
      omega

/-- With a session attached, the synchronous loop keeps the
audit-per-invocation balance. -/
theorem runAux_audits_inv (env : AgentEnv) (question : String) :
    ∀ (fuel : Nat) (st : LoopState), st.audits.length = st.invocations →
      (runAux env question true fuel st).audits.length =
        (runAux env question true fuel st).invocations := by
  intro fuel
  induction fuel with
  | zero => intro st h; exact h
  | succ fuel ih =>
    intro st h
    rcases hllm : env.llm (st.llm_requests == 0) st.messages with ⟨choice⟩ | m
    · rcases hfin : choice.finish_reason with _ | _ | _
      · rw [runAux_step_toolcalls env question true fuel st choice hllm hfin]
        apply ih
        apply foldToolCalls_audits_inv
        exact h
      · rw [runAux_step_stop env question true fuel st choice hllm hfin]
        exact h
      · rw [runAux_step_other env question true fuel st choice hllm hfin]
        exact h
    · rw [runAux_step_exn env question true fuel st m hllm]
      exact h

/-- Under a model that never stops requesting tools, the synchronous
loop falls through to the fixed fallback failure. -/
theorem runAux_exhaust (env : AgentEnv) (question : String) (session : Bool)
    (hll : ∀ b msgs, ∃ ch, env.llm b msgs = .ok ch ∧ ch.finish_reason = .tool_calls) :
    ∀ (fuel : Nat) (st : LoopState),
      (runAux env question session fuel st).result =
        { success := false, response := runFallbackText,
          error := some "Max iterations reached or unexpected finish reason" } := by
  intro fuel
  induction fuel with
  | zero => intro st; rfl
  | succ fuel ih =>
    intro st
    obtain ⟨ch, hch, hfin⟩ := hll (st.llm_requests == 0) st.messages
    rw [runAux_step_toolcalls env question session fuel st ch hch hfin]
    exact ih _

/-! ## Step equations of the streaming loop -/

/-- Exhausted fuel: the fallback error event. -/
theorem streamAux_zero (env : AgentEnv) (question : String) (st : LoopState)
    (evs : List SSEvent) :
    streamAux env question 0 st evs =
      { events := evs ++ [.error streamFallbackText],
        audits := st.audits, chat_rows := [],
        llm_requests := st.llm_requests, invocations := st.invocations } := rfl

/-- A transport exception from the loop model call. -/
theorem streamAux_step_exn (env : AgentEnv) (question : String)
    (fuel : Nat) (st : LoopState) (evs : List SSEvent) (m : String)
    (hllm : env.llm (st.llm_requests == 0) st.messages = .exn m) :
    streamAux env question (fuel + 1) st evs =
      { events := evs ++ [.error ("Service error: " ++ m)],
        audits := st.audits, chat_rows := [],
        llm_requests := st.llm_requests + 1, invocations := st.invocations } := by
  simp only [streamAux, hllm]

/-- A tool-call round of the streaming loop. -/
theorem streamAux_step_toolcalls (env : AgentEnv) (question : String)
    (fuel : Nat) (st : LoopState) (evs : List SSEvent) (choice : ChatChoice)
    (hllm : env.llm (st.llm_requests == 0) st.messages = .ok choice)
    (hfin : choice.finish_reason = .tool_calls) :
    streamAux env question (fuel + 1) st evs =
      streamAux env question fuel
        (foldToolCalls env question true choice.tool_calls
          { st with messages := st.messages ++ [.assistantChoice choice],
                    llm_requests := st.llm_requests + 1 })
        (evs ++ (choice.tool_calls.map (fun tc =>
          (processToolCall env question true tc).events)).flatten) := by
  simp only [streamAux, hllm, hfin]

/-- A natural stop whose incremental re-request succeeds. -/
theorem streamAux_step_stop_ok (env : AgentEnv) (question : String)
    (fuel : Nat) (st : LoopState) (evs : List SSEvent) (choice : ChatChoice)
    (chunks : List String)
    (hllm : env.llm (st.llm_requests == 0) st.messages = .ok choice)
    (hfin : choice.finish_reason = .stop)
    (hstream : env.llmStream st.messages = .ok chunks) :
    streamAux env question (fuel + 1) st evs =
      { events := (evs ++ [.status "Preparing response..."]) ++
          (chunks.filter (fun s => !(s == ""))).map SSEvent.chunk ++
          [.done env.sessionId st.row_count],
        audits := st.audits,
        chat_rows := [⟨.assistant, String.join (chunks.filter (fun s => !(s == ""))),
          .success⟩],
        llm_requests := st.llm_requests + 2, invocations := st.invocations } := by
  simp only [streamAux, hllm, hfin, hstream]

/-- A natural stop whose incremental re-request raises. -/
theorem streamAux_step_stop_exn (env : AgentEnv) (question : String)
    (fuel : Nat) (st : LoopState) (evs : List SSEvent) (choice : ChatChoice) (m : String)
    (hllm : env.llm (st.llm_requests == 0) st.messages = .ok choice)
    (hfin : choice.finish_reason = .stop)
    (hstream : env.llmStream st.messages = .exn m) :
    streamAux env question (fuel + 1) st evs =
      { events := (evs ++ [.status "Preparing response..."]) ++
          [.error ("Service error: " ++ m)],
        audits := st.audits, chat_rows := [],
        llm_requests := st.llm_requests + 2, invocations := st.invocations } := by
  simp only [streamAux, hllm, hfin, hstream]

/-- An unexpected finish reason: the `break`, hence the fallback event. -/
theorem streamAux_step_other (env : AgentEnv) (question : String)
    (fuel : Nat) (st : LoopState) (evs : List SSEvent) (choice : ChatChoice)
    (hllm : env.llm (st.llm_requests == 0) st.messages = .ok choice)
    (hfin : choice.finish_reason = .other) :
    streamAux env question (fuel + 1) st evs =
      { events := evs ++ [.error streamFallbackText],
        audits := st.audits, chat_rows := [],
        llm_requests := st.llm_requests + 1, invocations := st.invocations } := by
  simp only [streamAux, hllm, hfin]

/-- The streaming loop issues at most `fuel + 1` further model requests
(the extra one is the incremental final answer). -/
theorem streamAux_requests_le (env : AgentEnv) (question : String) :
    ∀ (fuel : Nat) (st : LoopState) (evs : List SSEvent),
      (streamAux env question fuel st evs).llm_requests ≤ st.llm_requests + fuel + 1 := by
  intro fuel
  induction fuel with
  | zero =>
    intro st evs
    rw [streamAux_zero]
    show st.llm_requests ≤ st.llm_requests + 0 + 1
    omega
  | succ fuel ih =>
    intro st evs
    rcases hllm : env.llm (st.llm_requests == 0) st.messages with ⟨choice⟩ | m
    · rcases hfin : choice.finish_reason with _ | _ | _
      · rw [streamAux_step_toolcalls env question fuel st evs choice hllm hfin]
        have h1 := ih (foldToolCalls env question true choice.tool_calls
          { st with messages := st.messages ++ [.assistantChoice choice],
                    llm_requests := st.llm_requests + 1 })
          (evs ++ (choice.tool_calls.map (fun tc =>
            (processToolCall env question true tc).events)).flatten)
        rw [foldToolCalls_requests] at h1
        have h2 : ({ st with
                       messages := st.messages ++ [.assistantChoice choice],
                       llm_requests := st.llm_requests + 1 } : LoopState).llm_requests
            = st.llm_requests + 1 := rfl
        rw [h2] at h1
        omega
      · rcases hstream : env.llmStream st.messages with chunks | m
        · rw [streamAux_step_stop_ok env question fuel st evs choice chunks hllm hfin
            hstream]
          show st.llm_requests + 2 ≤ st.llm_requests + (fuel + 1) + 1
          omega
        · rw [streamAux_step_stop_exn env question fuel st evs choice m hllm hfin
            hstream]
          show st.llm_requests + 2 ≤ st.llm_requests + (fuel + 1) + 1
          omega
      · rw [streamAux_step_other env question fuel st evs choice hllm hfin]
        show st.llm_requests + 1 ≤ st.llm_requests + (fuel + 1) + 1
        omega
    · rw [streamAux_step_exn env question fuel st evs m hllm]
      show st.llm_requests + 1 ≤ st.llm_requests + (fuel + 1) + 1
      omega

/-- The streaming loop keeps the audit-per-invocation balance (a session
is always attached in streaming mode). -/
theorem streamAux_audits_inv (env : AgentEnv) (question : String) :
    ∀ (fuel : Nat) (st : LoopState) (evs : List SSEvent),
      st.audits.length = st.invocations →
      (streamAux env question fuel st evs).audits.length =
        (streamAux env question fuel st evs).invocations := by
  intro fuel
  induction fuel with
  | zero => intro st evs h; exact h
  | succ fuel ih =>
    intro st evs h
    rcases hllm : env.llm (st.llm_requests == 0) st.messages with ⟨choice⟩ | m
    · rcases hfin : choice.finish_reason with _ | _ | _
      · rw [streamAux_step_toolcalls env question fuel st evs choice hllm hfin]
        apply ih
        apply foldToolCalls_audits_inv
        exact h
      · rcases hstream : env.llmStream st.messages with chunks | m
        · rw [streamAux_step_stop_ok env question fuel st evs choice chunks hllm hfin
            hstream]
          exact h
        · rw [streamAux_step_stop_exn env question fuel st evs choice m hllm hfin
            hstream]
          exact h
      · rw [streamAux_step_other env question fuel st evs choice hllm hfin]
        exact h
    · rw [streamAux_step_exn env question fuel st evs m hllm]
      exact h

/-- Under a model that never stops requesting tools, the streaming loop
ends with the fixed fallback error event. -/
theorem streamAux_exhaust (env : AgentEnv) (question : String)
    (hll : ∀ b msgs, ∃ ch, env.llm b msgs = .ok ch ∧ ch.finish_reason = .tool_calls) :
    ∀ (fuel : Nat) (st : LoopState) (evs : List SSEvent),
      (streamAux env question fuel st evs).events.getLast? =
        some (.error streamFallbackText) := by
  intro fuel
  induction fuel with
  | zero =>
    intro st evs
    rw [streamAux_zero]
    show (evs ++ [SSEvent.error streamFallbackText]).getLast? = _
    rw [List.getLast?_concat]
  | succ fuel ih =>
    intro st evs
    obtain ⟨ch, hch, hfin⟩ := hll (st.llm_requests == 0) st.messages
    rw [streamAux_step_toolcalls env question fuel st evs ch hch hfin]
    exact ih _ _

/-! ## Executor lemmas -/

/-- On a cursor that yields all its rows and then reports exhaustion,
the fetch loop returns the accumulated rows plus as many further rows as
fit under the ceiling. -/
theorem fetchRows_exhaust_ok (cols : List String) (avail : List (List String))
    (rows : List DbRow) (h : rows.length ≤ HARD_ROW_LIMIT) :
    fetchRows cols none avail rows =
      .ok (rows ++ (avail.take (HARD_ROW_LIMIT - rows.length)).map (zipRow cols)) := by
  rw [fetchRows_eq]
  by_cases hlt : rows.length < HARD_ROW_LIMIT
  · simp only [hlt, if_true]
    by_cases hb : (avail.take (HARD_ROW_LIMIT - rows.length)).isEmpty
    · simp only [hb, if_true]
      have havail : avail = [] := by
        rcases avail with _ | ⟨a, av⟩
        · rfl
        · exfalso
          rw [List.isEmpty_iff] at hb
          have : HARD_ROW_LIMIT - rows.length ≠ 0 := by omega
          rcases Nat.exists_eq_succ_of_ne_zero this with ⟨k, hk⟩
          rw [hk] at hb
          simp [List.take] at hb
      subst havail
      simp
    · simp only [hb, if_false]
      have hlen : (rows ++ (avail.take (HARD_ROW_LIMIT - rows.length)).map (zipRow cols)).length
          ≤ HARD_ROW_LIMIT := by
        simp only [List.length_append, List.length_map, List.length_take]
        omega
      rw [fetchRows_exhaust_ok cols (avail.drop (HARD_ROW_LIMIT - rows.length)) _ hlen]
      congr 1
      simp only [List.length_append, List.length_map, List.length_take, List.append_assoc,
        List.append_cancel_left_eq]
      rw [← List.map_append]
      congr 1
      by_cases hge : HARD_ROW_LIMIT - rows.length ≤ avail.length
      · have h0 : HARD_ROW_LIMIT - (rows.length + min (HARD_ROW_LIMIT - rows.length) avail.length)
            = 0 := by omega
        rw [h0]
        simp
      · have hdrop : avail.drop (HARD_ROW_LIMIT - rows.length) = [] :=
          List.drop_of_length_le (by omega)
        rw [hdrop]
        simp
  · simp only [hlt, if_false]
    have h0 : HARD_ROW_LIMIT - rows.length = 0 := by omega
    rw [h0]
    simp
termination_by avail.length
decreasing_by
  rcases avail with _ | ⟨a, av⟩
  · simp at hb
  · simp only [List.length_drop, List.length_cons]
    omega

/-- On a cursor that raises once exhausted, the loop succeeds exactly
when the ceiling is reached before exhaustion; otherwise the exception
propagates. -/
theorem fetchRows_exhaust_raise (cols : List String) (m : String)
    (avail : List (List String)) (rows : List DbRow) (h : rows.length ≤ HARD_ROW_LIMIT) :
    fetchRows cols (some m) avail rows =
      if HARD_ROW_LIMIT ≤ rows.length + avail.length then
        .ok (rows ++ (avail.take (HARD_ROW_LIMIT - rows.length)).map (zipRow cols))
      else .error m := by
  rw [fetchRows_eq]
  by_cases hlt : rows.length < HARD_ROW_LIMIT
  · simp only [hlt, if_true]
    by_cases hb : (avail.take (HARD_ROW_LIMIT - rows.length)).isEmpty
    · simp only [hb, if_true]
      have havail : avail = [] := by
        rcases avail with _ | ⟨a, av⟩
        · rfl
        · exfalso
          rw [List.isEmpty_iff] at hb
          have : HARD_ROW_LIMIT - rows.length ≠ 0 := by omega
          rcases Nat.exists_eq_succ_of_ne_zero this with ⟨k, hk⟩
          rw [hk] at hb
          simp [List.take] at hb
      subst havail
      have : ¬ HARD_ROW_LIMIT ≤ rows.length + 0 := by omega
      simp only [List.length_nil, this, if_false]
    · simp only [hb, if_false]
      have hne : avail ≠ [] := by
        rintro rfl
        simp at hb
      have hpos : 0 < avail.length := List.length_pos.mpr hne
      have hlen : (rows ++ (avail.take (HARD_ROW_LIMIT - rows.length)).map (zipRow cols)).length
          ≤ HARD_ROW_LIMIT := by
        simp only [List.length_append, List.length_map, List.length_take]
        omega
      rw [fetchRows_exhaust_raise cols m (avail.drop (HARD_ROW_LIMIT - rows.length)) _ hlen]
      simp only [List.length_append, List.length_map, List.length_take, List.length_drop]
      by_cases hge : HARD_ROW_LIMIT - rows.length ≤ avail.length
      · have hc1 : HARD_ROW_LIMIT ≤ rows.length + min (HARD_ROW_LIMIT - rows.length) avail.length
            + (avail.length - (HARD_ROW_LIMIT - rows.length)) := by omega
        have hc2 : HARD_ROW_LIMIT ≤ rows.length + avail.length := by omega
        simp only [hc1, if_true, hc2, if_true]
        congr 1
        simp only [List.append_assoc, List.append_cancel_left_eq]
        rw [← List.map_append]
        congr 1
        have h0 : HARD_ROW_LIMIT -
            (rows.length + min (HARD_ROW_LIMIT - rows.length) avail.length) = 0 := by omega
        rw [h0]
        simp
      · have hc1 : ¬ (HARD_ROW_LIMIT ≤ rows.length + min (HARD_ROW_LIMIT - rows.length)
            avail.length + (avail.length - (HARD_ROW_LIMIT - rows.length))) := by omega
        have hc2 : ¬ HARD_ROW_LIMIT ≤ rows.length + avail.length := by omega
        simp [hc1, hc2]
  · simp only [hlt, if_false]
    have hc : HARD_ROW_LIMIT ≤ rows.length + avail.length := by omega
    have h0 : HARD_ROW_LIMIT - rows.length = 0 := by omega
    simp only [hc, if_true, h0]
    simp
termination_by avail.length
decreasing_by
  rcases avail with _ | ⟨a, av⟩
  · simp at hb
  · simp only [List.length_drop, List.length_cons]
    omega

/-- Success characterization on a well-behaved cursor. -/
theorem executeQuery_ok (sql : List Char) (db : List Char → DbOutcome)
    (eo ee : Nat) (cols : List String) (tuples : List (List String))
    (h : db sql = .ok cols tuples) :
    executeQuery sql db eo ee =
      { success := true, columns := cols,
        rows := (tuples.take HARD_ROW_LIMIT).map (zipRow cols),
        row_count := ((tuples.take HARD_ROW_LIMIT).map (zipRow cols)).length,
        execution_time_ms := eo } := by
  unfold executeQuery
  rw [h]
  dsimp only
  rw [fetchRows_exhaust_ok cols tuples [] (by simp [HARD_ROW_LIMIT])]
  simp

/-- Characterization on a cursor that fails midway: success exactly when
the ceiling is reached before the failure point, failure discards every
partially fetched row. -/
theorem executeQuery_failDuringFetch (sql : List Char) (db : List Char → DbOutcome)
    (eo ee : Nat) (cols : List String) (tuples : List (List String)) (m : String)
    (h : db sql = .failDuringFetch cols tuples m) :
    executeQuery sql db eo ee =
      if HARD_ROW_LIMIT ≤ tuples.length then
        { success := true, columns := cols,
          rows := (tuples.take HARD_ROW_LIMIT).map (zipRow cols),
          row_count := ((tuples.take HARD_ROW_LIMIT).map (zipRow cols)).length,
          execution_time_ms := eo }
      else { success := false, execution_time_ms := ee, error := some m } := by
  unfold executeQuery
  rw [h]
  dsimp only
  rw [fetchRows_exhaust_raise cols m tuples [] (by simp [HARD_ROW_LIMIT])]
  by_cases hc : HARD_ROW_LIMIT ≤ tuples.length
  · simp only [List.length_nil, Nat.zero_add, hc, if_true, Nat.sub_zero]
    simp
  · simp only [List.length_nil, Nat.zero_add, hc, if_false]

/-- Characterization on a cursor that raises at `cursor.execute`. -/
theorem executeQuery_raise (sql : List Char) (db : List Char → DbOutcome)
    (eo ee : Nat) (m : String) (h : db sql = .raiseOnExecute m) :
    executeQuery sql db eo ee =
      { success := false, execution_time_ms := ee, error := some m } := by
  unfold executeQuery
  rw [h]

/-- On every successful execution the reported count is the number of
returned rows and is at most the hard ceiling. -/
theorem executeQuery_success_bound (sql : List Char) (db : List Char → DbOutcome)
    (eo ee : Nat) (h : (executeQuery sql db eo ee).success = true) :
    (executeQuery sql db eo ee).row_count = (executeQuery sql db eo ee).rows.length ∧
      (executeQuery sql db eo ee).row_count ≤ HARD_ROW_LIMIT := by
  rcases hdb : db sql with ⟨cols, tuples⟩ | ⟨cols, tuples, m⟩ | m
  · rw [executeQuery_ok sql db eo ee cols tuples hdb]
    refine ⟨rfl, ?_⟩
    simp only [List.length_map, List.length_take]
    omega
  · rw [executeQuery_failDuringFetch sql db eo ee cols tuples m hdb]
    rw [executeQuery_failDuringFetch sql db eo ee cols tuples m hdb] at h
    by_cases hc : HARD_ROW_LIMIT ≤ tuples.length
    · simp only [hc, if_true]
      refine ⟨by simp, ?_⟩
      simp only [List.length_map, List.length_take]
      omega
    · simp [hc] at h
  · rw [executeQuery_raise sql db eo ee m hdb] at h
    simp at h

/-- On every failed execution the error text is present and the elapsed
reading of the `except` handler is reported. -/
theorem executeQuery_failure_shape (sql : List Char) (db : List Char → DbOutcome)
    (eo ee : Nat) (h : (executeQuery sql db eo ee).success = false) :
    (executeQuery sql db eo ee).error.isSome = true ∧
      (executeQuery sql db eo ee).execution_time_ms = ee ∧
      (executeQuery sql db eo ee).columns = [] ∧
      (executeQuery sql db eo ee).rows = [] ∧
      (executeQuery sql db eo ee).row_count = 0 := by
  rcases hdb : db sql with ⟨cols, tuples⟩ | ⟨cols, tuples, m⟩ | m
  · rw [executeQuery_ok sql db eo ee cols tuples hdb] at h
    simp at h
  · rw [executeQuery_failDuringFetch sql db eo ee cols tuples m hdb] at h ⊢
    by_cases hc : HARD_ROW_LIMIT ≤ tuples.length
    · simp [hc] at h
    · simp [hc]
  · rw [executeQuery_raise sql db eo ee m hdb] at h ⊢
    simp

/-! ## Claim C4 -/

/-- C4: for every SQL string passed to the executor, a successful
`ExecutionResult` satisfies `row_count = rows.length ≤ HARD_ROW_LIMIT`
(200), regardless of any `LIMIT` clause inside the SQL itself (the
cursor oracle `db` is universally quantified, so it may yield anу number
of rows); and accumulation stops at the ceiling: on a cursor yielding
`tuples`, the returned rows are exactly the first 200 of them. -/
theorem c4_executor_row_ceiling (sql : List Char) (db : List Char → DbOutcome)
    (eo ee : Nat) :
    ((executeQuery sql db eo ee).success = true →
      (executeQuery sql db eo ee).row_count = (executeQuery sql db eo ee).rows.length ∧
        (executeQuery sql db eo ee).row_count ≤ HARD_ROW_LIMIT) ∧
    (∀ cols tuples, db sql = .ok cols tuples →
      (executeQuery sql db eo ee).rows = (tuples.take HARD_ROW_LIMIT).map (zipRow cols)) := by
  constructor
  · exact executeQuery_success_bound sql db eo ee
  · intro cols tuples hdb
    rw [executeQuery_ok sql db eo ee cols tuples hdb]

/-- Witness for C4 at a cursor yielding 300 rows: the result is capped
at 200 and the count matches the rows. -/
theorem c4_executor_row_ceiling_witness :
    (executeQuery ("SELECT x FROM t LIMIT 300".toList)
        (fun _ => .ok ["x"] (List.replicate 300 ["v"])) 3 4).success = true ∧
    (executeQuery ("SELECT x FROM t LIMIT 300".toList)
        (fun _ => .ok ["x"] (List.replicate 300 ["v"])) 3 4).row_count = 200 ∧
    (executeQuery ("SELECT x FROM t LIMIT 300".toList)
        (fun _ => .ok ["x"] (List.replicate 300 ["v"])) 3 4).row_count =
      (executeQuery ("SELECT x FROM t LIMIT 300".toList)
        (fun _ => .ok ["x"] (List.replicate 300 ["v"])) 3 4).rows.length ∧
    (executeQuery ("SELECT x FROM t LIMIT 300".toList)
        (fun _ => .ok ["x"] (List.replicate 300 ["v"])) 3 4).row_count ≤ HARD_ROW_LIMIT := by
  have h := (c4_executor_row_ceiling ("SELECT x FROM t LIMIT 300".toList)
    (fun _ => .ok ["x"] (List.replicate 300 ["v"])) 3 4).1 (by decide)
  exact ⟨by decide, by decide, h.1, h.2⟩

/-! ## Claim C5 -/

/-- C5: `execute` never raises to its caller — it is a total function
into `ExecutionResult` — and every execution error (the cursor oracle
raising on `execute` or midway through the fetch) comes back as a
failure value carrying the error text and the elapsed milliseconds. -/
theorem c5_execute_failures_are_values (sql : List Char) (db : List Char → DbOutcome)
    (eo ee : Nat) :
    (∀ m, db sql = .raiseOnExecute m →
      executeQuery sql db eo ee =
        { success := false, execution_time_ms := ee, error := some m }) ∧
    ((executeQuery sql db eo ee).success = false →
      (executeQuery sql db eo ee).error.isSome = true ∧
        (executeQuery sql db eo ee).execution_time_ms = ee) := by
  constructor
  · intro m hdb
    exact executeQuery_raise sql db eo ee m hdb
  · intro h
    exact ⟨(executeQuery_failure_shape sql db eo ee h).1,
      (executeQuery_failure_shape sql db eo ee h).2.1⟩

/-- Witness for C5 at a cursor raising on a missing table. -/
theorem c5_execute_failures_are_values_witness :
    executeQuery ("SELECT a FROM missing".toList)
        (fun _ => .raiseOnExecute "no such table: missing") 5 7 =
      { success := false, execution_time_ms := 7, error := some "no such table: missing" } ∧
    (executeQuery ("SELECT a FROM missing".toList)
        (fun _ => .raiseOnExecute "no such table: missing") 5 7).error.isSome = true := by
  have h := c5_execute_failures_are_values ("SELECT a FROM missing".toList)
    (fun _ => .raiseOnExecute "no such table: missing") 5 7
  exact ⟨h.1 "no such table: missing" rfl, (h.2 (by decide)).1⟩

/-! ## Claim C10 -/

/-- C10: whenever `execute` returns a failure, the result exposes no
partial data: columns and rows are empty and the count is zero — even on
a cursor (`failDuringFetch`) that had already yielded rows before the
error occurred. -/
theorem c10_failure_exposes_no_partial_data (sql : List Char)
    (db : List Char → DbOutcome) (eo ee : Nat)
    (h : (executeQuery sql db eo ee).success = false) :
    (executeQuery sql db eo ee).columns = [] ∧
      (executeQuery sql db eo ee).rows = [] ∧
      (executeQuery sql db eo ee).row_count = 0 := by
  exact ⟨(executeQuery_failure_shape sql db eo ee h).2.2.1,
    (executeQuery_failure_shape sql db eo ee h).2.2.2.1,
    (executeQuery_failure_shape sql db eo ee h).2.2.2.2⟩

/-- Witness for C10 at a cursor that yields one row and then fails:
the failure result exposes none of it. -/
theorem c10_failure_exposes_no_partial_data_witness :
    (executeQuery ("SELECT a FROM t".toList)
        (fun _ => .failDuringFetch ["a"] [["r1"]] "timeout") 5 7).success = false ∧
    (executeQuery ("SELECT a FROM t".toList)
        (fun _ => .failDuringFetch ["a"] [["r1"]] "timeout") 5 7).columns = [] ∧
    (executeQuery ("SELECT a FROM t".toList)
        (fun _ => .failDuringFetch ["a"] [["r1"]] "timeout") 5 7).rows = [] ∧
    (executeQuery ("SELECT a FROM t".toList)
        (fun _ => .failDuringFetch ["a"] [["r1"]] "timeout") 5 7).row_count = 0 := by
  have h := c10_failure_exposes_no_partial_data ("SELECT a FROM t".toList)
    (fun _ => .failDuringFetch ["a"] [["r1"]] "timeout") 5 7 (by decide)
  exact ⟨by decide, h.1, h.2.1, h.2.2⟩

/-! ## Counterexamples to the claims as stated -/

/-- Counterexample to C1 as stated: the synchronous orchestrator mode
can run headless (`session = false`; the non-streaming HTTP view invokes
it exactly so), and then an `execute_sql` tool invocation produces zero
audit records, not exactly one. -/
theorem c1_counterexample :
    (ChatAgent.run c1Env "how many customers" false).invocations = 1 ∧
    (ChatAgent.run c1Env "how many customers" false).audits = [] := by
  decide

/-- Counterexample to C2 as stated: with a natural stop on the fifth
iteration, the streaming orchestrator issues six language-model requests
for one question — the five loop requests plus the final
incremental-delivery request — exceeding the iteration ceiling of 5. -/
theorem c2_counterexample :
    (ChatAgent.stream_run c2Env "sales by region").llm_requests = 6 ∧
    ¬ (ChatAgent.stream_run c2Env "sales by region").llm_requests ≤ MAX_TOOL_ITERATIONS := by
  decide

/-- Counterexample to C3 as stated: the accepted input
`SELECT 1 LIMIT 5 LIMIT 300` carries two `LIMIT` clauses; the first one
(5 ≤ 200) makes the validator keep the text unchanged, so the sanitized
output still contains two `LIMIT` clauses, one of value 300 > 200. -/
theorem c3_counterexample :
    (validate ("SELECT 1 LIMIT 5 LIMIT 300".toList)).is_valid = true ∧
    (validate ("SELECT 1 LIMIT 5 LIMIT 300".toList)).sanitized_sql =
      some ("SELECT 1 LIMIT 5 LIMIT 300".toList) ∧
    limitMatches ("SELECT 1 LIMIT 5 LIMIT 300".toList) = [5, 300] ∧
    ¬ ((limitMatches ("SELECT 1 LIMIT 5 LIMIT 300".toList)).length = 1 ∧
        ∀ v ∈ limitMatches ("SELECT 1 LIMIT 5 LIMIT 300".toList), v ≤ MAX_ROWS) := by
  decide

/-- Counterexample to C6 as stated: (a) the exact reason strings are
capitalized (`"Empty SQL"`, not `"empty SQL"`); (b) the fence-stripping
regex `'^```\w*\n?'` swallows a word adjacent to the opening fence, so
the input `` ```DROP⏎SELECT 1 FROM t `` contains the blocklisted
keyword `DROP` as a whole word and is nevertheless accepted as Valid. -/
theorem c6_counterexample :
    (validate ("".toList)).error = some "Empty SQL" ∧
    some "Empty SQL" ≠ some "empty SQL" ∧
    "DROP".toList ∈ tokens (("```DROP\nSELECT 1 FROM t".toList).map pyUpper) ∧
    "DROP".toList ∈ DANGEROUS_KEYWORDS ∧
    (validate ("```DROP\nSELECT 1 FROM t".toList)).is_valid = true := by
  decide

/-- Counterexample to C7 as stated: for the fenced input
`` ```⏎SELECT 1 LIMIT 5;⏎``` `` the sanitized output keeps an internal
trailing semicolon (the fences are stripped after `rstrip(';')`), and
re-validating strips that semicolon, so the second sanitized output
differs from the first. -/
theorem c7_counterexample :
    (validate ("```\nSELECT 1 LIMIT 5;\n```".toList)).is_valid = true ∧
    (validate ("```\nSELECT 1 LIMIT 5;\n```".toList)).sanitized_sql =
      some ("SELECT 1 LIMIT 5;".toList) ∧
    (validate ("SELECT 1 LIMIT 5;".toList)).is_valid = true ∧
    (validate ("SELECT 1 LIMIT 5;".toList)).sanitized_sql =
      some ("SELECT 1 LIMIT 5".toList) ∧
    (validate ("SELECT 1 LIMIT 5;".toList)).sanitized_sql ≠
      some ("SELECT 1 LIMIT 5;".toList) := by
  decide

/-- Counterexample to C8 as stated: on a successful execution the single
audit record stores the sanitized SQL in its only SQL field
(`generated_sql`); the SQL text as generated by the model is not
recorded anywhere in the record. -/
theorem c8_counterexample :
    (ChatAgent.run c8Env "how many" true).audits.length = 1 ∧
    (∀ a ∈ (ChatAgent.run c8Env "how many" true).audits,
      a.generated_sql ≠ "SELECT id FROM t".toList) ∧
    ((ChatAgent.run c8Env "how many" true).audits.head?.map
      (fun a => a.generated_sql)) = some ("SELECT id FROM t LIMIT 200".toList) := by
  decide

/-- Counterexample to C9 as stated: the code's `rstrip(';')` removes
every trailing semicolon, not a single one: on `SELECT 1;;` the cleaned
text is `SELECT 1`, not `SELECT 1;`, and the sanitized output shows it. -/
theorem c9_counterexample :
    claimedSingleTerminatorTrim ("SELECT 1;;".toList) = "SELECT 1;".toList ∧
    cleanSql ("SELECT 1;;".toList) = "SELECT 1".toList ∧
    (validate ("SELECT 1;;".toList)).sanitized_sql = some ("SELECT 1 LIMIT 200".toList) ∧
    ("SELECT 1".toList : List Char) ≠ "SELECT 1;".toList := by
  decide


/-! ## Claim C1 (amended) -/

/-- C1 (amended): with a conversation context attached — always the case
in streaming mode, and in synchronous mode only when a session is passed
(the synchronous HTTP view runs headless, see the counterexample) —
every `execute_sql` tool invocation creates exactly one audit record,
whose error field is empty exactly when validation and execution both
succeeded; over a whole run in either mode the number of audit rows
equals the number of tool invocations. -/
theorem c1_audit_per_invocation :
    (∀ (env : AgentEnv) (question : String) (tc : ToolCall), tc.name = "execute_sql" →
      (processToolCall env question true tc).audits.length = 1 ∧
      ∀ a ∈ (processToolCall env question true tc).audits,
        (a.error = none ↔
          (validate tc.sqlArg).is_valid = true ∧
          (executeQuery ((validate tc.sqlArg).sanitized_sql.getD []) env.db
            env.elapsedOk env.elapsedErr).success = true)) ∧
    (∀ (env : AgentEnv) (question : String),
      (ChatAgent.run env question true).audits.length =
        (ChatAgent.run env question true).invocations) ∧
    (∀ (env : AgentEnv) (question : String),
      (ChatAgent.stream_run env question).audits.length =
        (ChatAgent.stream_run env question).invocations) := by
  refine ⟨?_, ?_, ?_⟩
  · intro env question tc h
    by_cases hval : (validate tc.sqlArg).is_valid
    · by_cases hres : (executeQuery ((validate tc.sqlArg).sanitized_sql.getD []) env.db
        env.elapsedOk env.elapsedErr).success
      · rw [processToolCall_success env question tc h hval hres]
        refine ⟨rfl, ?_⟩
        intro a ha
        simp only [List.mem_singleton] at ha
        subst ha
        constructor
        · intro _
          exact ⟨hval, hres⟩
        · intro _
          rfl
      · have hresf : (executeQuery ((validate tc.sqlArg).sanitized_sql.getD []) env.db
            env.elapsedOk env.elapsedErr).success = false := by simpa using hres
        rw [processToolCall_execfail env question tc h hval hresf]
        refine ⟨rfl, ?_⟩
        intro a ha
        simp only [List.mem_singleton] at ha
        subst ha
        constructor
        · intro he
          exfalso
          have hsome := (executeQuery_failure_shape ((validate tc.sqlArg).sanitized_sql.getD [])
            env.db env.elapsedOk env.elapsedErr hresf).1
          have he' : (executeQuery ((validate tc.sqlArg).sanitized_sql.getD []) env.db
              env.elapsedOk env.elapsedErr).error = none := he
          rw [he'] at hsome
          simp at hsome
        · intro hcon
          have hc := hcon.2
          rw [hresf] at hc
          cases hc
    · have hvalf : (validate tc.sqlArg).is_valid = false := by simpa using hval
      rw [processToolCall_invalid env question tc h hvalf]
      refine ⟨rfl, ?_⟩
      intro a ha
      simp only [List.mem_singleton] at ha
      subst ha
      constructor
      · intro he
        exfalso
        have hsome := validate_invalid_error hvalf
        have he' : (validate tc.sqlArg).error = none := he
        rw [he'] at hsome
        simp at hsome
      · intro hcon
        have hc := hcon.1
        rw [hvalf] at hc
        cases hc
  · intro env question
    exact runAux_audits_inv env question MAX_TOOL_ITERATIONS
      { messages := [.system env.systemPrompt, .user question] } rfl
  · intro env question
    exact streamAux_audits_inv env question MAX_TOOL_ITERATIONS
      { messages := [.system env.systemPrompt, .user question] }
      [.status "Analyzing your question..."] rfl

/-- Witness for C1 at a concrete one-tool-call run with a session. -/
theorem c1_audit_per_invocation_witness :
    (ChatAgent.run c1Env "how many customers" true).audits.length =
      (ChatAgent.run c1Env "how many customers" true).invocations :=
  c1_audit_per_invocation.2.1 c1Env "how many customers"

/-! ## Claim C2 (amended) -/

/-- C2 (amended): the synchronous orchestrator issues at most
`MAX_TOOL_ITERATIONS` (5) model requests per question, but the streaming
orchestrator issues up to 6 — the loop requests plus one further
incremental-delivery request after a natural stop (see the
counterexample).  Reaching the ceiling without a natural stop yields the
fixed fallback: the failure answer text in synchronous mode, the
fallback error event in streaming mode. -/
theorem c2_request_ceiling :
    (∀ (env : AgentEnv) (question : String) (session : Bool),
      (ChatAgent.run env question session).llm_requests ≤ MAX_TOOL_ITERATIONS) ∧
    (∀ (env : AgentEnv) (question : String),
      (ChatAgent.stream_run env question).llm_requests ≤ MAX_TOOL_ITERATIONS + 1) ∧
    (∀ (env : AgentEnv) (question : String) (session : Bool),
      (∀ b msgs, ∃ ch, env.llm b msgs = .ok ch ∧ ch.finish_reason = .tool_calls) →
      (ChatAgent.run env question session).result =
        { success := false, response := runFallbackText,
          error := some "Max iterations reached or unexpected finish reason" } ∧
      (ChatAgent.stream_run env question).events.getLast? =
        some (.error streamFallbackText)) := by
  refine ⟨?_, ?_, ?_⟩
  · intro env question session
    have h := runAux_requests_le env question session MAX_TOOL_ITERATIONS
      { messages := [.system env.systemPrompt, .user question] }
    simpa using h
  · intro env question
    have h := streamAux_requests_le env question MAX_TOOL_ITERATIONS
      { messages := [.system env.systemPrompt, .user question] }
      [.status "Analyzing your question..."]
    simpa using h
  · intro env question session hll
    exact ⟨runAux_exhaust env question session hll MAX_TOOL_ITERATIONS
        { messages := [.system env.systemPrompt, .user question] },
      streamAux_exhaust env question hll MAX_TOOL_ITERATIONS
        { messages := [.system env.systemPrompt, .user question] }
        [.status "Analyzing your question..."]⟩

/-- Witness for C2 under a model that always requests tools: both modes
end in their fixed fallback. -/
theorem c2_request_ceiling_witness :
    (ChatAgent.run c2ExhaustEnv "q" true).result =
      { success := false, response := runFallbackText,
        error := some "Max iterations reached or unexpected finish reason" } ∧
    (ChatAgent.stream_run c2ExhaustEnv "q").events.getLast? =
      some (.error streamFallbackText) :=
  c2_request_ceiling.2.2 c2ExhaustEnv "q" true
    (fun _ _ => ⟨{ finish_reason := .tool_calls }, rfl, rfl⟩)

/-! ## Claim C3 (amended) -/

/-- C3 (amended): for every accepted input whose cleaned text carries at
most one `LIMIT n` clause, the sanitized output carries exactly one, of
value at most 200: with no clause the text gets ` LIMIT 200` appended;
a clause above the ceiling is rewritten to 200; a clause within the
ceiling is kept with the text unchanged.  (Multi-clause inputs break the
claim as stated, see the counterexample.) -/
theorem c3_limit_ceiling (sql : List Char)
    (hv : (validate sql).is_valid = true)
    (hone : (limitMatches (cleanSql sql)).length ≤ 1) :
    ∃ s, (validate sql).sanitized_sql = some s ∧
      (limitMatches s).length = 1 ∧
      (∀ w ∈ limitMatches s, w ≤ MAX_ROWS) ∧
      (limitMatches (cleanSql sql) = [] →
        s = cleanSql sql ++ ' ' :: limitRepl ∧ limitMatches s = [MAX_ROWS]) ∧
      (∀ v, limitMatches (cleanSql sql) = [v] → MAX_ROWS < v →
        limitMatches s = [MAX_ROWS]) ∧
      (∀ v, limitMatches (cleanSql sql) = [v] → v ≤ MAX_ROWS →
        s = cleanSql sql ∧ limitMatches s = [v]) := by
  obtain ⟨h0, h6, hf, herr, hbranch⟩ := validate_valid_inv hv
  rcases hbranch with ⟨pre, v, post, hffl, hcase⟩ | ⟨hffl, hsan⟩
  · have hLM : limitMatches (cleanSql sql) = v :: limitMatchesAux true post := by
      unfold limitMatches
      rw [limitMatchesAux_eq false (cleanSql sql), hffl]
    have hpost0 : limitMatchesAux true post = [] := by
      rw [hLM] at hone
      simp only [List.length_cons] at hone
      exact List.eq_nil_of_length_eq_zero (by omega)
    have hLM1 : limitMatches (cleanSql sql) = [v] := by rw [hLM, hpost0]
    have hLM1' : limitMatchesAux false (cleanSql sql) = [v] := hLM1
    rcases hcase with ⟨hgt, hsan⟩ | ⟨hle, hsan⟩
    · have hsub1 : limitMatches (subLimits (cleanSql sql)) = [MAX_ROWS] := by
        unfold limitMatches subLimits
        rw [limitMatchesAux_sub (cleanSql sql) false, hLM1']
        rfl
      refine ⟨subLimits (cleanSql sql), hsan, by rw [hsub1]; rfl, ?_, ?_, ?_, ?_⟩
      · intro w hw
        rw [hsub1] at hw
        simp only [List.mem_singleton] at hw
        omega
      · intro hnil
        rw [hLM1] at hnil
        cases hnil
      · intro v' hv' hgt'
        exact hsub1
      · intro v' hv' hle'
        exfalso
        rw [hLM1] at hv'
        simp only [List.cons.injEq, and_true] at hv'
        omega
    · refine ⟨cleanSql sql, hsan, by rw [hLM1]; rfl, ?_, ?_, ?_, ?_⟩
      · intro w hw
        rw [hLM1] at hw
        simp only [List.mem_singleton] at hw
        omega
      · intro hnil
        rw [hLM1] at hnil
        cases hnil
      · intro v' hv' hgt'
        exfalso
        rw [hLM1] at hv'
        simp only [List.cons.injEq, and_true] at hv'
        omega
      · intro v' hv' hle'
        exact ⟨rfl, hv'⟩
  · have hLM0 : limitMatches (cleanSql sql) = [] := by
      unfold limitMatches
      rw [limitMatchesAux_eq false (cleanSql sql), hffl]
    have happ : limitMatches (cleanSql sql ++ ' ' :: limitRepl) = [MAX_ROWS] := by
      unfold limitMatches
      exact limitMatchesAux_append (cleanSql sql) false hffl
    refine ⟨cleanSql sql ++ ' ' :: limitRepl, hsan, by rw [happ]; rfl, ?_, ?_, ?_, ?_⟩
    · intro w hw
      rw [happ] at hw
      simp only [List.mem_singleton] at hw
      omega
    · intro _
      exact ⟨rfl, happ⟩
    · intro v' hv' hgt'
      rw [hLM0] at hv'
      cases hv'
    · intro v' hv' hle'
      rw [hLM0] at hv'
      cases hv'

/-- Witness for C3 at `SELECT * FROM t LIMIT 500`: one clause, above the
ceiling, rewritten down to 200. -/
theorem c3_limit_ceiling_witness :
    ∃ s, (validate ("SELECT * FROM t LIMIT 500".toList)).sanitized_sql = some s ∧
      (limitMatches s).length = 1 ∧
      (∀ w ∈ limitMatches s, w ≤ MAX_ROWS) ∧
      (limitMatches (cleanSql ("SELECT * FROM t LIMIT 500".toList)) = [] →
        s = cleanSql ("SELECT * FROM t LIMIT 500".toList) ++ ' ' :: limitRepl ∧
        limitMatches s = [MAX_ROWS]) ∧
      (∀ v, limitMatches (cleanSql ("SELECT * FROM t LIMIT 500".toList)) = [v] →
        MAX_ROWS < v → limitMatches s = [MAX_ROWS]) ∧
      (∀ v, limitMatches (cleanSql ("SELECT * FROM t LIMIT 500".toList)) = [v] →
        v ≤ MAX_ROWS → s = cleanSql ("SELECT * FROM t LIMIT 500".toList) ∧
        limitMatches s = [v]) :=
  c3_limit_ceiling ("SELECT * FROM t LIMIT 500".toList) (by decide) (by decide)

/-! ## Claim C6 (amended) -/

/-- C6 (amended): the exact rejection reasons are the capitalized
strings `"Empty SQL"`, `"Only SELECT queries are allowed"` and
`"Forbidden keyword: X"`; the blocklist scan applies to the cleaned
text (fence stripping may swallow a keyword adjacent to the opening
fence, see the counterexample): whenever the cleaned upper-cased text
contains a blocklisted keyword as a whole-word token — even though it
starts with SELECT — `validate` rejects naming the first such token. -/
theorem c6_rejection_reasons :
    (validate [] = { is_valid := false, error := some "Empty SQL" }) ∧
    (∀ sql : List Char, ¬ sql = [] →
      ¬ ((cleanSql sql).map pyUpper).take 6 = "SELECT".toList →
      validate sql =
        { is_valid := false, error := some "Only SELECT queries are allowed" }) ∧
    (∀ sql : List Char, ¬ sql = [] →
      ((cleanSql sql).map pyUpper).take 6 = "SELECT".toList →
      (∃ k ∈ tokens ((cleanSql sql).map pyUpper), k ∈ DANGEROUS_KEYWORDS) →
      ∃ t, t ∈ tokens ((cleanSql sql).map pyUpper) ∧ t ∈ DANGEROUS_KEYWORDS ∧
        validate sql =
          { is_valid := false,
            error := some ("Forbidden keyword: " ++ String.mk t) }) := by
  refine ⟨validate_empty, ?_, ?_⟩
  · intro sql h0 h6
    exact validate_not_select sql h0 h6
  · intro sql h0 h6 hex
    rcases hfind : firstForbidden (tokens ((cleanSql sql).map pyUpper)) with _ | t
    · exfalso
      obtain ⟨k, hk1, hk2⟩ := hex
      exact firstForbidden_none_iff.mp hfind k hk1 hk2
    · have hfind' : (tokens ((cleanSql sql).map pyUpper)).find?
          (fun t => DANGEROUS_KEYWORDS.contains t) = some t := hfind
      refine ⟨t, List.mem_of_find?_eq_some hfind', ?_,
        validate_forbidden sql h0 h6 hfind⟩
      have hp := List.find?_some hfind'
      simpa using hp

/-- Witness for C6: a cleaned text that starts with SELECT and carries
`DROP` as a whole word is rejected naming it. -/
theorem c6_rejection_reasons_witness :
    ∃ t, t ∈ tokens ((cleanSql ("SELECT 1 FROM t; DROP TABLE t".toList)).map pyUpper) ∧
      t ∈ DANGEROUS_KEYWORDS ∧
      validate ("SELECT 1 FROM t; DROP TABLE t".toList) =
        { is_valid := false, error := some ("Forbidden keyword: " ++ String.mk t) } :=
  c6_rejection_reasons.2.2 ("SELECT 1 FROM t; DROP TABLE t".toList) (by decide)
    (by decide) (by decide)

/-! ## Claim C7 (amended) -/

/-- C7 (amended): `validate` is idempotent on every accepted input whose
sanitized output is a fixed point of the cleaning pipeline (fence
stripping can leave an inner trailing semicolon or fence marker behind,
breaking unconditional idempotence — see the counterexample):
re-validating such a sanitized output accepts it and returns it
unchanged. -/
theorem c7_idempotent_on_clean (x s : List Char)
    (hv : (validate x).is_valid = true)
    (hs : (validate x).sanitized_sql = some s)
    (hclean : cleanSql s = s) :
    validate s = { is_valid := true, error := none, sanitized_sql := some s } := by
  obtain ⟨h0, h6, hforb, herr, hbranch⟩ := validate_valid_inv hv
  have hforb' := firstForbidden_none_iff.mp hforb
  rcases hbranch with ⟨pre, v, post, hffl, hcase⟩ | ⟨hffl, hsan⟩
  · obtain ⟨lm5, ws, ds, hsplit, hlm, hws, hwsall, hds, hdsall, hveq, hshape, hfirst,
      hlast⟩ := findFirstLimit_decomp (cleanSql x) false pre v post hffl
    have hpre6 : 6 ≤ pre.length := findFirstLimit_select_pre h6 hffl
    rcases hcase with ⟨hgt, hsan⟩ | ⟨hle, hsan⟩
    · rw [hsan] at hs
      have hseq := Option.some.inj hs
      subst hseq
      have hX : subLimitsAux true post = [] ∨
          ∃ x' xs, subLimitsAux true post = x' :: xs ∧ isWordChar x' = false := by
        rcases hshape with rfl | ⟨x', xs, rfl, hx'⟩
        · exact Or.inl (subLimitsAux_nil true)
        · rw [subLimitsAux_cons_skip (Or.inl rfl)]
          exact Or.inr ⟨x', _, rfl, hx'⟩
      have hse : subLimits (cleanSql x) = pre ++ (limitRepl ++ subLimitsAux true post) := by
        unfold subLimits
        rw [subLimitsAux_eq, hffl]
        simp
      have hffl2 : findFirstLimit false (subLimits (cleanSql x))
          = some (pre, MAX_ROWS, subLimitsAux true post) := by
        rw [hse]
        exact findFirstLimit_stable (cleanSql x) false pre v post
          (subLimitsAux true post) hffl hX
      have h6s : ((subLimits (cleanSql x)).map pyUpper).take 6 = "SELECT".toList := by
        rw [hsplit, take6_map_append (lm5 ++ (ws ++ (ds ++ post))) hpre6] at h6
        rw [hse, take6_map_append (limitRepl ++ subLimitsAux true post) hpre6]
        exact h6
      have hforbs : firstForbidden (tokens ((subLimits (cleanSql x)).map pyUpper))
          = none := by
        apply firstForbidden_none_iff.mpr
        intro t ht
        have ht' : t ∈ tokens ((subLimitsAux false (cleanSql x)).map pyUpper) := ht
        rcases tokens_upper_sub (cleanSql x) false t ht' with h1 | h1 | h1
        · exact hforb' t h1
        · subst h1
          decide
        · subst h1
          decide
      have h0s : ¬ subLimits (cleanSql x) = [] := by
        rw [hse]
        intro hcon
        have hlen := congrArg List.length hcon
        have h9 : limitRepl.length = 9 := rfl
        simp only [List.length_append, List.length_nil] at hlen
        omega
      exact validate_of_checks h0s hclean h6s hforbs hffl2 (Nat.le_refl MAX_ROWS)
    · rw [hsan] at hs
      have hseq := Option.some.inj hs
      subst hseq
      have h0s : ¬ cleanSql x = [] := by
        intro hcon
        rw [hcon] at h6
        simp at h6
      exact validate_of_checks h0s hclean h6 hforb hffl (by omega)
  · rw [hsan] at hs
    have hseq := Option.some.inj hs
    subst hseq
    have hlen6 : 6 ≤ (cleanSql x).length := by
      have hlen1 := congrArg List.length h6
      rw [List.length_take, List.length_map] at hlen1
      rw [show ("SELECT".toList).length = 6 from rfl] at hlen1
      omega
    have h6s : ((cleanSql x ++ ' ' :: limitRepl).map pyUpper).take 6
        = "SELECT".toList := by
      rw [take6_map_append (' ' :: limitRepl) hlen6]
      exact h6
    have hforbs : firstForbidden (tokens ((cleanSql x ++ ' ' :: limitRepl).map pyUpper))
        = none := by
      apply firstForbidden_none_iff.mpr
      intro t ht
      have hmap : (cleanSql x ++ ' ' :: limitRepl).map pyUpper
          = (cleanSql x).map pyUpper ++ ' ' :: "LIMIT 200".toList := by
        simp only [List.map_append, List.map_cons, map_pyUpper_limitRepl]
        rfl
      rw [hmap, tokens_append_break ((cleanSql x).map pyUpper) ' ' ("LIMIT 200".toList)
        (by decide), List.mem_append] at ht
      rcases ht with ht | ht
      · exact hforb' t ht
      · rw [show tokens ("LIMIT 200".toList) = ["LIMIT".toList, "200".toList]
            from by decide] at ht
        simp only [List.mem_cons, List.not_mem_nil, or_false] at ht
        rcases ht with rfl | rfl
        · decide
        · decide
    have hffl2 := findFirstLimit_append (cleanSql x) false hffl
    have h0s : ¬ (cleanSql x ++ ' ' :: limitRepl) = [] := by simp
    exact validate_of_checks h0s hclean h6s hforbs hffl2 (Nat.le_refl MAX_ROWS)

/-- Witness for C7: the sanitized output of `select * from t` is clean,
and re-validating it returns it unchanged. -/
theorem c7_idempotent_on_clean_witness :
    validate ("select * from t LIMIT 200".toList) =
      { is_valid := true, error := none,
        sanitized_sql := some ("select * from t LIMIT 200".toList) } :=
  c7_idempotent_on_clean ("select * from t".toList)
    ("select * from t LIMIT 200".toList) (by decide) (by decide) (by decide)

/-! ## Claim C8 (amended) -/

/-- C8 (amended): an audit record has a single SQL field
(`generated_sql`) — there is no separate field for the model's raw text
and the executed text (see the counterexample).  Each record stores the
original question; on validation failure it stores the raw model SQL and
the validation error; otherwise it stores the sanitized SQL as executed,
with row count and latency on success, or the execution error on
failure. -/
theorem c8_audit_fields (env : AgentEnv) (question : String) (tc : ToolCall)
    (h : tc.name = "execute_sql") :
    (processToolCall env question true tc).audits.length = 1 ∧
    ∀ a ∈ (processToolCall env question true tc).audits,
      a.user_question = question ∧
      ((validate tc.sqlArg).is_valid = false →
        a.generated_sql = tc.sqlArg ∧ a.error = (validate tc.sqlArg).error ∧
        a.row_count = none ∧ a.execution_time_ms = none) ∧
      ((validate tc.sqlArg).is_valid = true →
        a.generated_sql = (validate tc.sqlArg).sanitized_sql.getD [] ∧
        ((executeQuery ((validate tc.sqlArg).sanitized_sql.getD []) env.db env.elapsedOk
            env.elapsedErr).success = true →
          a.row_count = some (executeQuery ((validate tc.sqlArg).sanitized_sql.getD [])
            env.db env.elapsedOk env.elapsedErr).row_count ∧
          a.execution_time_ms = some (executeQuery
            ((validate tc.sqlArg).sanitized_sql.getD [])
            env.db env.elapsedOk env.elapsedErr).execution_time_ms ∧
          a.error = none) ∧
        ((executeQuery ((validate tc.sqlArg).sanitized_sql.getD []) env.db env.elapsedOk
            env.elapsedErr).success = false →
          a.error = (executeQuery ((validate tc.sqlArg).sanitized_sql.getD [])
            env.db env.elapsedOk env.elapsedErr).error ∧
          a.row_count = none ∧ a.execution_time_ms = none)) := by
  by_cases hval : (validate tc.sqlArg).is_valid
  · by_cases hres : (executeQuery ((validate tc.sqlArg).sanitized_sql.getD []) env.db
      env.elapsedOk env.elapsedErr).success
    · rw [processToolCall_success env question tc h hval hres]
      refine ⟨rfl, ?_⟩
      intro a ha
      simp only [List.mem_singleton] at ha
      subst ha
      refine ⟨rfl, ?_, ?_⟩
      · intro hcon
        rw [hval] at hcon
        cases hcon
      · intro _
        refine ⟨rfl, ?_, ?_⟩
        · intro _
          exact ⟨rfl, rfl, rfl⟩
        · intro hcon
          rw [hres] at hcon
          cases hcon
    · have hresf : (executeQuery ((validate tc.sqlArg).sanitized_sql.getD []) env.db
          env.elapsedOk env.elapsedErr).success = false := by simpa using hres
      rw [processToolCall_execfail env question tc h hval hresf]
      refine ⟨rfl, ?_⟩
      intro a ha
      simp only [List.mem_singleton] at ha
      subst ha
      refine ⟨rfl, ?_, ?_⟩
      · intro hcon
        rw [hval] at hcon
        cases hcon
      · intro _
        refine ⟨rfl, ?_, ?_⟩
        · intro hcon
          rw [hresf] at hcon
          cases hcon
        · intro _
          exact ⟨rfl, rfl, rfl⟩
  · have hvalf : (validate tc.sqlArg).is_valid = false := by simpa using hval
    rw [processToolCall_invalid env question tc h hvalf]
    refine ⟨rfl, ?_⟩
    intro a ha
    simp only [List.mem_singleton] at ha
    subst ha
    refine ⟨rfl, ?_, ?_⟩
    · intro _
      exact ⟨rfl, rfl, rfl, rfl⟩
    · intro hcon
      rw [hvalf] at hcon
      cases hcon

/-- Witness for C8 at a concrete successful invocation. -/
theorem c8_audit_fields_witness :
    (processToolCall c8Env "how many" true
      { id := "call_8", name := "execute_sql",
        arguments := [("sql", "SELECT id FROM t")] }).audits.length = 1 :=
  (c8_audit_fields c8Env "how many"
    { id := "call_8", name := "execute_sql",
      arguments := [("sql", "SELECT id FROM t")] } rfl).1

/-! ## Claim C9 (amended) -/

/-- C9 (amended): before inspecting content, `validate` strips
surrounding whitespace, then every trailing semicolon (not just one —
see the counterexample), then a possible enclosing code fence, then
strips again; the SELECT check, blocklist scan and LIMIT enforcement
read only this cleaned text (two nonempty inputs with the same cleaned
text validate identically). -/
theorem c9_cleaning_pipeline (sql : List Char) (h : ¬ sql = []) :
    (∀ t, ¬ t = [] → cleanSql t = cleanSql sql → validate t = validate sql) ∧
    (∃ k, strip sql = rstripSemi (strip sql) ++ List.replicate k ';') ∧
    (∀ c, (rstripSemi (strip sql)).getLast? = some c → ¬ c = ';') ∧
    cleanSql sql = strip (stripTrailFence (stripLeadFence (rstripSemi (strip sql)))) := by
  refine ⟨?_, rstripSemi_decomp (strip sql), ?_, rfl⟩
  · intro t ht hc
    exact validate_congr_clean ht h hc
  · intro c hc
    exact rstripSemi_getLast (strip sql) hc

/-- Witness for C9 at `SELECT 1;;`: both trailing semicolons are
stripped. -/
theorem c9_cleaning_pipeline_witness :
    ∃ k, strip ("SELECT 1;;".toList) =
      rstripSemi (strip ("SELECT 1;;".toList)) ++ List.replicate k ';' :=
  (c9_cleaning_pipeline ("SELECT 1;;".toList) (by decide)).2.1

end SalesAnalytics
